import Mathlib

/-
Verification of the summarization orchestration engine of the repository
(src/ai_summary/generator.py together with src/ai_summary/openai_client.py).

The development shallowly embeds the Python code:

* JSON values (the shapes the remote model may return, and the parsed input
  article) are modelled by the inductive type `Json`.
* Python's dynamic operations (`or`-defaulting, truthiness, `.strip()` on a
  value that may not be a string, `dict.get`, iteration) are modelled by
  executable helper functions; where CPython raises (AttributeError,
  TypeError, KeyError, ValueError, RuntimeError, UnboundLocalError) the
  embedding returns the corresponding `PyErr` through `Except`.
* The regular expressions `_FIG_REF_RE` and the supplementary-reference
  pattern of `_is_supplementary_ref` are embedded by an executable
  backtracking matcher (`matchP`) with Python `re` leftmost/greedy priority
  semantics, specialised to the two concrete patterns.  Character classes
  are modelled at ASCII granularity (`\w`, `\s`, `\d` restricted to ASCII),
  which is faithful on the ASCII texts the properties quantify over.
* The remote model is an oracle `Nat → Resp` giving, for the k-th issued
  call, the stripped response text and the result of `json.loads` on it
  (`none` models an unparsable response).  The per-client call counter
  installed by `get_openai_client` (`_bump` wrapping
  `chat.completions.create`, ceiling `MAX_CALLS = 20`) is part of the run
  state; the run is a state-with-error monad `M` whose error also carries
  the final state so that the number of issued calls is observable on the
  error path.  Token-usage bookkeeping (`_merge_usage`) is observational in
  the source and is not modelled.
* Python `float` arithmetic used only for summary-length targets
  (`target_ratio`, the 1.15 slack factor) is modelled by exact rational
  arithmetic on naturals; no verified property depends on those lengths.
-/

/-- JSON values, the universe of parsed model responses and input articles. -/
inductive Json where
  | null : Json
  | bool (b : Bool) : Json
  | num (n : Int) : Json
  | str (s : String) : Json
  | arr (xs : List Json) : Json
  | obj (kvs : List (String × Json)) : Json

/-- Errors the embedded Python code can raise. -/
inductive PyErr where
  | valueError (msg : String) : PyErr
  | runtimeError (msg : String) : PyErr
  | attrError : PyErr
  | typeError : PyErr
  | keyError : PyErr
  | unboundLocal : PyErr
  | budget : PyErr
deriving DecidableEq

mutual

/-- Structural boolean equality on JSON values (Python `==` restricted to the
comparisons the code performs, which are between strings and other scalars;
object comparison is keyed on the stored association order, which agrees with
Python whenever one side is not a dict, the only case exercised). -/
def Json.eqb : Json → Json → Bool
  | .null, .null => true
  | .bool a, .bool b => a == b
  | .num a, .num b => a == b
  | .str a, .str b => a == b
  | .arr a, .arr b => Json.eqbList a b
  | .obj a, .obj b => Json.eqbObj a b
  | _, _ => false

/-- Elementwise equality of JSON lists. -/
def Json.eqbList : List Json → List Json → Bool
  | [], ys => ys.isEmpty
  | _ :: _, [] => false
  | x :: xs, y :: ys => Json.eqb x y && Json.eqbList xs ys

/-- Elementwise equality of JSON key/value lists. -/
def Json.eqbObj : List (String × Json) → List (String × Json) → Bool
  | [], ys => ys.isEmpty
  | _ :: _, [] => false
  | p :: xs, q :: ys => p.1 == q.1 && (Json.eqb p.2 q.2 && Json.eqbObj xs ys)

end

/-- Python truthiness of a JSON value. -/
def Json.truthy : Json → Bool
  | .null => false
  | .bool b => b
  | .num n => n != 0
  | .str s => !s.isEmpty
  | .arr xs => !xs.isEmpty
  | .obj kvs => !kvs.isEmpty

/-- Python `a or b` on JSON values. -/
def pyOr (a b : Json) : Json := if a.truthy then a else b

/-- Lookup in an association list modelling a Python dict (`d.get(k)` when the
key is present). -/
def jlookup (kvs : List (String × Json)) (k : String) : Option Json :=
  (kvs.find? (fun p => p.1 == k)).map (fun p => p.2)

/-- Python `d[k] = v`: replace in place if present, else append. -/
def jset (kvs : List (String × Json)) (k : String) (v : Json) : List (String × Json) :=
  match kvs with
  | [] => [(k, v)]
  | (k', v') :: rest =>
      if k' == k then (k', v) :: rest else (k', v') :: jset rest k v

/-- Lookup in a string-valued association list (the `by_title` dict). -/
def alookup (kvs : List (String × String)) (k : String) : Option String :=
  (kvs.find? (fun p => p.1 == k)).map (fun p => p.2)

/-- Assignment in a string-valued association list (Python dict semantics). -/
def aset (kvs : List (String × String)) (k v : String) : List (String × String) :=
  match kvs with
  | [] => [(k, v)]
  | (k', v') :: rest =>
      if k' == k then (k', v) :: rest else (k', v') :: aset rest k v

/-- Whitespace characters of Python's `\s` (ASCII part). -/
def isWsChar (c : Char) : Bool :=
  (c == '\t' || c == '\n') || (c == '\x0b' || c == '\x0c') || (c == '\r' || c == ' ')

/-- List-level two-sided whitespace strip. -/
def stripChars (l : List Char) : List Char :=
  ((l.dropWhile isWsChar).reverse.dropWhile isWsChar).reverse

/-- Python `str.strip()` on an actual string. -/
def pstrip (s : String) : String := String.mk (stripChars s.data)

/-- Python `str.rstrip()`. -/
def prstrip (s : String) : String := String.mk ((s.data.reverse.dropWhile isWsChar).reverse)

/-- Python `str.lower()` (ASCII case mapping). -/
def lowerStr (s : String) : String := String.mk (s.data.map Char.toLower)

/-- Python `str.upper()` (ASCII case mapping). -/
def upperStr (s : String) : String := String.mk (s.data.map Char.toUpper)

/-- Python `str(v)` on a JSON value (containers rendered in a fixed repr-like
form; the code only ever renders scalars where the exact text matters). -/
def pyToStr : Json → String
  | .str s => s
  | .null => "None"
  | .bool true => "True"
  | .bool false => "False"
  | .num n => toString n
  | .arr _ => "[…]"
  | .obj _ => "\x7b…\x7d"

/-- Python `x.strip()` where `x` came from dynamic JSON: only strings have a
`strip` method, anything else raises AttributeError. -/
def pyStripAttr : Json → Except PyErr String
  | .str s => .ok (pstrip s)
  | _ => .error .attrError

/-- Value equal to `None` or `""` (the `in (None, "")` test of the source). -/
def jIsNullOrEmptyStr : Json → Bool
  | .null => true
  | .str s => s.isEmpty
  | _ => false

/-- Python `d.get(k, dflt)` on a dynamic value: raises AttributeError when the
receiver is not a dict. -/
def pyGetD (j : Json) (k : String) (dflt : Json) : Except PyErr Json :=
  match j with
  | .obj kvs => .ok ((jlookup kvs k).getD dflt)
  | _ => .error .attrError

/-- Python `d.get(k)` (default `None`). -/
def pyGet (j : Json) (k : String) : Except PyErr Json := pyGetD j k .null

/-- Python `d[k]` subscription on a dynamic value. -/
def pySubscript (j : Json) (k : String) : Except PyErr Json :=
  match j with
  | .obj kvs =>
      match jlookup kvs k with
      | some v => .ok v
      | none => .error .keyError
  | _ => .error .typeError

/-- Python `for x in v` producing the iterated elements: lists yield their
elements, dicts their keys, strings their characters, everything else raises
TypeError. -/
def pyIter (j : Json) : Except PyErr (List Json) :=
  match j with
  | .arr xs => .ok xs
  | .obj kvs => .ok (kvs.map (fun p => Json.str p.1))
  | .str s => .ok (s.data.map (fun c => Json.str (String.mk [c])))
  | _ => .error .typeError

/-- Substring containment on character lists (Python `needle in hay`). -/
def isInfixChars : List Char → List Char → Bool
  | n, [] => n.isEmpty
  | n, c :: cs => List.isPrefixOf n (c :: cs) || isInfixChars n cs

/-- Python `needle in hay` on strings. -/
def containsSubstr (hay needle : String) : Bool := isInfixChars needle.data hay.data

/-- Prefix test on strings (Python `str.startswith`). -/
def startsWithStr (s pre : String) : Bool := List.isPrefixOf pre.data s.data

/-- Fuel-driven body of Python `str.split(sep)` for a non-empty separator:
scan left to right, breaking at each non-overlapping separator occurrence. -/
def splitOnCharsF (sep : List Char) : Nat → List Char → List Char → List (List Char)
  | 0, cur, _ => [cur.reverse]
  | _, cur, [] => [cur.reverse]
  | fuel + 1, cur, c :: cs =>
      if List.isPrefixOf sep (c :: cs) then
        cur.reverse :: splitOnCharsF sep fuel [] ((c :: cs).drop sep.length)
      else splitOnCharsF sep fuel (c :: cur) cs

/-- Python `s.split(sep)` for a non-empty separator. -/
def splitOnStr (s sep : String) : List String :=
  (splitOnCharsF sep.data s.data.length [] s.data).map String.mk

/-- Stable insertion of one element into a sorted list. -/
def insSorted (le : α → α → Bool) (x : α) : List α → List α
  | [] => [x]
  | y :: ys => if le x y then x :: y :: ys else y :: insSorted le x ys

/-- Stable sort (insertion sort) agreeing with Python's stable `list.sort`
for a total preorder comparison. -/
def insSortBy (le : α → α → Bool) (l : List α) : List α :=
  l.foldr (insSorted le) []

/-- ASCII digit (Python `\d` at ASCII granularity). -/
def isDigitChar (c : Char) : Bool := c.isDigit

/-- ASCII letter; with `re.IGNORECASE` both `[A-Za-z]` and `[a-z]` match any
ASCII letter. -/
def isLetterChar (c : Char) : Bool := c.isAlpha

/-- Word character of Python `\b` (ASCII part of `\w`). -/
def wordChar (c : Char) : Bool := c.isAlpha || c.isDigit || c == '_'

/-- Dash class `[–-]` of `_FIG_REF_RE` (en dash or hyphen). -/
def isDashChar (c : Char) : Bool := c == '–' || c == '-'

/-- Case-insensitive character comparison used for `re.IGNORECASE` literals. -/
def lowerEq (a c : Char) : Bool := a.toLower == c.toLower

/-- Pattern fragments of the two concrete regular expressions of the source:
case-insensitive literals, single-character classes, greedy `*` and `+` over a
class, sequencing and greedy option. -/
inductive Pat where
  | lit (t : List Char) : Pat
  | one (p : Char → Bool) : Pat
  | run0 (p : Char → Bool) : Pat
  | run1 (p : Char → Bool) : Pat
  | seq (a b : Pat) : Pat
  | opt (a : Pat) : Pat

/-- Case-insensitive literal match returning the rest of the input. -/
def matchLit : List Char → List Char → Option (List Char)
  | [], s => some s
  | _ :: _, [] => none
  | a :: ts, c :: cs => if lowerEq a c then matchLit ts cs else none

/-- Length of the maximal prefix run of characters in a class. -/
def runLen (p : Char → Bool) : List Char → Nat
  | [] => 0
  | c :: cs => if p c then runLen p cs + 1 else 0

/-- Greedy backtracking over a `*` run: try consuming `i` characters first,
then fewer, finally zero. -/
def tryDrops (k : List Char → Option Nat) (s : List Char) : Nat → Option Nat
  | 0 => k s
  | i + 1 =>
      match k (s.drop (i + 1)) with
      | some v => some v
      | none => tryDrops k s i

/-- Greedy backtracking over a `+` run: try consuming `i` characters first,
then fewer, failing below one. -/
def tryDrops1 (k : List Char → Option Nat) (s : List Char) : Nat → Option Nat
  | 0 => none
  | i + 1 =>
      match k (s.drop (i + 1)) with
      | some v => some v
      | none => tryDrops1 k s i

/-- Backtracking matcher with Python `re` priority (leftmost choice, greedy
quantifiers tried longest first).  The continuation receives the rest of the
input; the first succeeding alternative wins. -/
def matchP : Pat → List Char → (List Char → Option Nat) → Option Nat
  | .lit t, s, k =>
      match matchLit t s with
      | some r => k r
      | none => none
  | .one p, s, k =>
      match s with
      | [] => none
      | c :: cs => if p c then k cs else none
  | .run0 p, s, k => tryDrops k s (runLen p s)
  | .run1 p, s, k => tryDrops1 k s (runLen p s)
  | .seq a b, s, k => matchP a s (fun r => matchP b r k)
  | .opt a, s, k =>
      match matchP a s k with
      | some v => some v
      | none => k s

/-- Tail of `_FIG_REF_RE` after the mandatory digits:
`[A-Za-z]?(?:\s*[–-]\s*\d+[A-Za-z]?)?(?:[a-z])?` (IGNORECASE). -/
def figTailPat : Pat :=
  .seq (.opt (.one isLetterChar))
    (.seq
      (.opt (.seq (.run0 isWsChar)
        (.seq (.one isDashChar)
          (.seq (.run0 isWsChar)
            (.seq (.run1 isDigitChar) (.opt (.one isLetterChar)))))))
      (.opt (.one isLetterChar)))

/-- Core of `_FIG_REF_RE` after the optional supplementary prefix:
`(?:Fig(?:ure)?s?)\.?\s*(?:S\s*)?\d+` followed by `figTailPat`. -/
def figCorePat : Pat :=
  .seq (.lit "fig".data)
    (.seq (.opt (.lit "ure".data))
      (.seq (.opt (.lit "s".data))
        (.seq (.opt (.lit ".".data))
          (.seq (.run0 isWsChar)
            (.seq (.opt (.seq (.lit "s".data) (.run0 isWsChar)))
              (.seq (.run1 isDigitChar) figTailPat))))))

/-- Whole `_FIG_REF_RE` body between the two `\b` anchors:
`(?:Supplementary\s+)?` then `figCorePat`. -/
def figRefPat : Pat :=
  .seq (.opt (.seq (.lit "supplementary".data) (.run1 isWsChar))) figCorePat

/-- Trailing `\b` of `_FIG_REF_RE`: the match must end at the end of input or
before a non-word character (every match ends in a word character). -/
def boundaryOK : List Char → Bool
  | [] => true
  | c :: _ => !wordChar c

/-- Attempt `_FIG_REF_RE` at the start of `s` (the leading `\b` is checked by
the scanner); returns the consumed length of the leftmost greedy match. -/
def figMatchAt (s : List Char) : Option Nat :=
  matchP figRefPat s (fun r => if boundaryOK r then some (s.length - r.length) else none)

/-- Scanner modelling `finditer`: attempt the pattern at successive positions,
skipping positions whose preceding character is a word character (where the
leading `\b` fails, the pattern's first character always being a word
character); after a match, resume right after it.  The fuel argument makes
the recursion structural; callers pass the input length, which every step
strictly decreases. -/
def figScanAux : Nat → Bool → List Char → List (List Char)
  | 0, _, _ => []
  | _, _, [] => []
  | fuel + 1, prevW, c :: cs =>
      if prevW then figScanAux fuel (wordChar c) cs
      else
        match figMatchAt (c :: cs) with
        | some (n + 1) =>
            ((c :: cs).take (n + 1)) ::
              figScanAux fuel (wordChar (((c :: cs).take (n + 1)).getLastD 'x'))
                ((c :: cs).drop (n + 1))
        | _ => figScanAux fuel (wordChar c) cs

/-- Raw `m.group(0)` matches of `_FIG_REF_RE` over a text, in scan order. -/
def rawFigMatches (text : String) : List String :=
  (figScanAux text.data.length false text.data).map String.mk

/-- Whitespace-run collapsing of `re.sub(r"\s+", " ", …)`: every maximal
whitespace run becomes a single space (`prevWs` tracks being inside a run). -/
def collapseWsAux (prevWs : Bool) : List Char → List Char
  | [] => []
  | c :: cs =>
      if isWsChar c then
        if prevWs then collapseWsAux true cs else ' ' :: collapseWsAux true cs
      else c :: collapseWsAux false cs

/-- Embedded `_normalize_fig_ref`: strip, collapse whitespace runs to one
space, en dash to hyphen, lowercase. -/
def normalize_fig_ref (s : String) : String :=
  lowerStr (String.mk ((collapseWsAux false (stripChars s.data)).map
    (fun c => if c = '–' then '-' else c)))

/-- Scanner for the supplementary pattern `\bfig(?:ure)?s?\.?\s*s\s*\d` used by
`_is_supplementary_ref` (applied to an already lowercased string). -/
def suppPat : Pat :=
  .seq (.lit "fig".data)
    (.seq (.opt (.lit "ure".data))
      (.seq (.opt (.lit "s".data))
        (.seq (.opt (.lit ".".data))
          (.seq (.run0 isWsChar)
            (.seq (.lit "s".data)
              (.seq (.run0 isWsChar) (.one isDigitChar)))))))

/-- Search (in the sense of `re.search`) for `suppPat` with its leading `\b`. -/
def suppSearchAux (prevW : Bool) (s : List Char) : Bool :=
  match s with
  | [] => false
  | c :: cs =>
      (!prevW && (matchP suppPat (c :: cs) (fun _ => some 0)).isSome) ||
        suppSearchAux (wordChar c) cs

/-- Embedded `_is_supplementary_ref`. -/
def is_supplementary_ref (ref : String) : Bool :=
  let r := lowerStr ref
  containsSubstr r "supplementary" || suppSearchAux false r.data

/-- Dedup/filter loop of `extract_non_supp_figure_refs` over the stripped raw
matches, carrying the set of already seen normalized references. -/
def extractLoop : List String → List String → List String
  | _, [] => []
  | seen, ref :: rest =>
      if is_supplementary_ref ref then extractLoop seen rest
      else
        let n := normalize_fig_ref ref
        if seen.contains n then extractLoop seen rest
        else ref :: extractLoop (n :: seen) rest

/-- Embedded `extract_non_supp_figure_refs`. -/
def extract_non_supp_figure_refs (text : String) : List String :=
  if text.isEmpty then []
  else extractLoop [] ((rawFigMatches text).map pstrip)

/-- Embedded `extract_non_supp_figure_refs` applied to a dynamic value (the
source passes `item.get("mini_summary", "")` straight in; `if not text` lets
any falsy value through as the empty result, and `finditer` raises TypeError
on a truthy non-string). -/
def extractRefsJson (j : Json) : Except PyErr (List String) :=
  if j.truthy then
    match j with
    | .str s => .ok (extract_non_supp_figure_refs s)
    | _ => .error .typeError
  else .ok []

/-- Embedded `_contains_all_refs` (the `text` argument already a string). -/
def contains_all_refs (text : String) (required : List String) : Bool × List String :=
  if required.isEmpty then (true, [])
  else
    let tnorm := normalize_fig_ref text
    let missing := required.filter (fun r => !containsSubstr tnorm (normalize_fig_ref r))
    (missing.isEmpty, missing)

/-- Key/value list underlying a summary value (`dict(summary)` after the
non-dict guard). -/
def summary_kvs (summary : Json) : List (String × Json) :=
  match summary with
  | .obj kvs => kvs
  | _ => []

/-- Embedded `_get_res_title`: `(item.get("title") or item.get("section_title")
or "").strip()`. -/
def get_res_title (r : Json) : Except PyErr String := do
  let t ← pyGet r "title"
  let st ← pyGet r "section_title"
  pyStripAttr (pyOr t (pyOr st (.str "")))

/-- Embedded `_get_results_titles_from_input`. -/
def get_results_titles_from_input (article : Json) : Except PyErr (List String) := do
  let raw ← pyGet article "results"
  let items ← pyIter (pyOr raw (.arr []))
  let titles ← items.mapM get_res_title
  pure (titles.filter (fun t => !t.isEmpty))

/-- First-truthy chain `(item.get(k₁) or item.get(k₂) or item.get(k₃) or "")`
followed by `.strip()`, the recurring tolerant-decoder idiom of the source. -/
def stripChain3 (r : Json) (k₁ k₂ k₃ : String) : Except PyErr String := do
  let a ← pyGet r k₁
  let b ← pyGet r k₂
  let c ← pyGet r k₃
  pyStripAttr (pyOr a (pyOr b (pyOr c (.str ""))))

/-- Embedded `by_title` construction of `_normalize_summary_output`: a dict
maps titles to texts, a list of objects is decoded field by field, anything
else contributes nothing. -/
def results_by_title (raw : Option Json) : Except PyErr (List (String × String)) :=
  match raw with
  | some (.obj kvs) =>
      .ok (kvs.foldl
        (fun acc p =>
          let t := pstrip p.1
          let s := pstrip (pyToStr (pyOr p.2 (.str "")))
          if t.isEmpty then acc else aset acc t s) [])
  | some (.arr items) =>
      items.foldlM
        (fun acc item =>
          match item with
          | .obj _ => do
              let t ← stripChain3 item "section_title" "title" "section"
              let s ← do
                let a ← pyGet item "mini_summary"
                let b ← pyGet item "summary"
                let c ← pyGet item "text"
                let d ← pyGet item "content"
                pyStripAttr (pyOr a (pyOr b (pyOr c (pyOr d (.str "")))))
              pure (if t.isEmpty then acc else aset acc t s)
          | _ => pure acc) []
  | _ => .ok []

/-- Embedded `figures.items` coercion of `_normalize_summary_output`. -/
def figures_items (raw : Option Json) : Except PyErr (List Json) :=
  match raw with
  | some (.arr its) => do
      let pairs ← its.foldlM
        (fun acc it =>
          match it with
          | .obj _ => do
              let f ← stripChain3 it "figure" "id" "name"
              let s ← stripChain3 it "summary" "text" "caption_summary"
              pure (acc ++ [(f, s)])
          | _ => pure acc) ([] : List (String × String))
      pure ((pairs.filter (fun p => !p.1.isEmpty && !p.2.isEmpty)).map
        (fun p => Json.obj [("figure", .str p.1), ("summary", .str p.2)]))
  | _ => .ok []

/-- Embedded abbreviation pair collection of `_normalize_summary_output`. -/
def abbr_pairs (raw : Option Json) : Except PyErr (List (String × String)) :=
  match raw with
  | some (.obj kvs) =>
      .ok (kvs.foldl
        (fun acc p =>
          let ab := pstrip p.1
          let ex := match p.2 with
            | .null => ""
            | v => pstrip (pyToStr v)
          if !ab.isEmpty && !ex.isEmpty then acc ++ [(ab, ex)] else acc) [])
  | some (.arr its) =>
      its.foldlM
        (fun acc it =>
          match it with
          | .obj _ => do
              let ab ← stripChain3 it "abbr" "abbreviation" "short"
              let ex ← stripChain3 it "expanded" "expansion" "long"
              pure (if !ab.isEmpty && !ex.isEmpty then acc ++ [(ab, ex)] else acc)
          | _ => pure acc) []
  | _ => .ok []

/-- Case-insensitive first-wins dedup of abbreviation pairs (`casefold` keyed
dict insertion, modelled with ASCII lowercasing). -/
def dedupAbbr (pairs : List (String × String)) : List (String × String) :=
  pairs.foldl
    (fun acc p =>
      if acc.any (fun q => lowerStr q.1 == lowerStr p.1) then acc else acc ++ [p]) []

/-- Header after the defaults pass: start from the model-returned header (or
`{}`), then fill every missing/None/empty key from `header_defaults` (whose
falsy values, `None` or an empty mapping, skip the pass entirely). -/
def header_base (summ : List (String × Json))
    (header_defaults : Option (List (String × Json))) : List (String × Json) :=
  let hdr0 : List (String × Json) :=
    match jlookup summ "header" with
    | some (.obj kvs) => kvs
    | _ => []
  match header_defaults with
  | none => hdr0
  | some defs =>
      if defs.isEmpty then hdr0
      else defs.foldl
        (fun h p =>
          if (jlookup h p.1).isNone || jIsNullOrEmptyStr ((jlookup h p.1).getD .null) then
            jset h p.1 p.2
          else h) hdr0

/-- Title fill step: when the header's title is falsy, take the article's. -/
def header_title_step (article : Json) (hdr1 : List (String × Json)) :
    Except PyErr (List (String × Json)) :=
  if ((jlookup hdr1 "title").getD .null).truthy then .ok hdr1
  else
    (pyGetD article "title" (.str "")).bind (fun t =>
      .ok (jset hdr1 "title" (.str (pyToStr (pyOr t (.str ""))))))

/-- Year fill step: when the year is missing, None or empty, take the
article's. -/
def header_year_step (article : Json) (hdr2 : List (String × Json)) :
    Except PyErr (List (String × Json)) :=
  if (jlookup hdr2 "year").isNone || jIsNullOrEmptyStr ((jlookup hdr2 "year").getD .null) then
    (pyGetD article "year" (.str "")).bind (fun y => .ok (jset hdr2 "year" y))
  else .ok hdr2

/-- Unconditional final header fields: the run's model identifier, the
stripped upper-cased language code, and a defaulted `source_path`. -/
def header_tail (hdr3 : List (String × Json)) (model language : String) :
    List (String × Json) :=
  let hdr4 := jset hdr3 "model" (.str model)
  let hdr5 := jset hdr4 "language" (.str (upperStr (pstrip language)))
  if (jlookup hdr5 "source_path").isNone then jset hdr5 "source_path" (.str "") else hdr5

/-- Embedded header normalization of `_normalize_summary_output`. -/
def normalize_header (article : Json) (summ : List (String × Json)) (model language : String)
    (header_defaults : Option (List (String × Json))) : Except PyErr (List (String × Json)) :=
  (header_title_step article (header_base summ header_defaults)).bind (fun hdr2 =>
    (header_year_step article hdr2).bind (fun hdr3 =>
      .ok (header_tail hdr3 model language)))

/-- Pure dict transformations of the first stages of
`_normalize_summary_output` (key points, introduction, discussion) applied
after the header rebuild. -/
def normalize_pre_pure (summ hdr : List (String × Json)) : List (String × Json) :=
  let out1 := jset summ "header" (.obj hdr)
  let kps :=
    match jlookup out1 "key_points" with
    | some (.arr xs) =>
        xs.filterMap (fun x =>
          match x with
          | .str s => if (pstrip s).isEmpty then none else some (Json.str (pstrip s))
          | _ => none)
    | _ => []
  let out2 := jset out1 "key_points" (.arr kps)
  let introS :=
    match jlookup out2 "introduction" with
    | some (.str s) => pstrip s
    | _ => ""
  let out3 := jset out2 "introduction" (.str introS)
  let discS :=
    match jlookup out3 "discussion" with
    | some (.str s) => pstrip s
    | _ => ""
  jset out3 "discussion" (.str discS)

/-- First stages of `_normalize_summary_output` (header, key points,
introduction, discussion), producing the working dict right before the
Results rebuild. -/
def normalize_pre (article summary : Json) (model language : String)
    (header_defaults : Option (List (String × Json))) :
    Except PyErr (List (String × Json)) :=
  (normalize_header article (summary_kvs summary) model language header_defaults).map
    (normalize_pre_pure (summary_kvs summary))

/-- Results entry rebuilt for one expected title from the decoded model
entries. -/
def rebuilt_entry (byTitle : List (String × String)) (t : String) : Json :=
  Json.obj [("section_title", .str t),
    ("mini_summary", .str (
      let s := (alookup byTitle t).getD "—"
      if s.isEmpty then "—" else s))]

/-- Working dict after the Results rebuild. -/
def out5_of (out4 : List (String × Json)) (expected : List String)
    (byTitle : List (String × String)) : List (String × Json) :=
  jset out4 "results" (.arr (expected.map (rebuilt_entry byTitle)))

/-- Figures sub-dict of the working dict (`{}` when missing or not a dict). -/
def figs0_of (out5 : List (String × Json)) : List (String × Json) :=
  match jlookup out5 "figures" with
  | some (.obj kvs) => kvs
  | _ => []

/-- Narrative string selection with the `figures_narrative` legacy
fallback. -/
def narr_of (out5 : List (String × Json)) : String :=
  match jlookup (figs0_of out5) "narrative" with
  | some (.str s) => pstrip s
  | _ =>
      match jlookup out5 "figures_narrative" with
      | some (.str s) => pstrip s
      | _ => ""

/-- Working dict after the figures coercion. -/
def out6_of (out5 : List (String × Json)) (items : List Json) : List (String × Json) :=
  jset out5 "figures"
    (.obj (jset (jset (figs0_of out5) "narrative" (.str (narr_of out5))) "items" (.arr items)))

/-- Final abbreviation list rendering (dedup case-insensitively, first
expansion wins, sorted by lowercased abbreviation, stable). -/
def abbr_json (pairs : List (String × String)) : Json :=
  .arr ((insSortBy (fun a b => lowerStr a.1 ≤ lowerStr b.1) (dedupAbbr pairs)).map
    (fun p => Json.obj [("abbr", .str p.1), ("expanded", .str p.2)]))

/-- Later stages of `_normalize_summary_output` (precondition check, Results
rebuild, figures coercion, abbreviations), starting from the working dict. -/
def normalize_post (article : Json) (out4 : List (String × Json)) : Except PyErr Json :=
  (get_results_titles_from_input article).bind (fun expected =>
    if expected.isEmpty then
      .error (.valueError "No Results subsections found in input JSON.")
    else
      (results_by_title (jlookup out4 "results")).bind (fun byTitle =>
        (figures_items (jlookup (figs0_of (out5_of out4 expected byTitle)) "items")).bind
          (fun items =>
            (abbr_pairs (jlookup (out6_of (out5_of out4 expected byTitle) items)
                "abbreviations")).bind
              (fun pairs =>
                .ok (.obj (jset (out6_of (out5_of out4 expected byTitle) items)
                  "abbreviations" (abbr_json pairs)))))))

/-- Embedded `_normalize_summary_output`.  A pure function of its arguments
(it never invokes the remote model); dynamic shape errors of CPython surface
as `Except.error`. -/
def normalize_summary_output (article summary : Json) (model language : String)
    (header_defaults : Option (List (String × Json))) : Except PyErr Json :=
  (normalize_pre article summary model language header_defaults).bind
    (normalize_post article)

/-- JSON string escaping of `json.dumps` (ensure_ascii=False): backslash,
quote and ASCII control characters are escaped, everything else verbatim. -/
def jsonEscapeChar (c : Char) : List Char :=
  if c = '"' then ['\\', '"']
  else if c = '\\' then ['\\', '\\']
  else if c = '\n' then ['\\', 'n']
  else if c = '\t' then ['\\', 't']
  else if c = '\r' then ['\\', 'r']
  else if c.toNat < 32 then
    ('\\' :: 'u' :: '0' :: '0' :: [Nat.digitChar (c.toNat / 16), Nat.digitChar (c.toNat % 16)])
  else [c]

/-- JSON string literal rendering of `json.dumps`. -/
def jsonQuote (s : String) : String :=
  String.mk ('"' :: s.data.foldr (fun c acc => jsonEscapeChar c ++ acc) ['"'])

mutual

/-- Embedded `json.dumps(..., ensure_ascii=False)` with the default
separators `", "` and `": "` (used only for the auto-strategy size probe). -/
def Json.dumps : Json → String
  | .null => "null"
  | .bool true => "true"
  | .bool false => "false"
  | .num n => toString n
  | .str s => jsonQuote s
  | .arr xs => "[" ++ Json.dumpsList xs ++ "]"
  | .obj kvs => "\x7b" ++ Json.dumpsObj kvs ++ "\x7d"

/-- Comma-separated rendering of a JSON array body. -/
def Json.dumpsList : List Json → String
  | [] => ""
  | [x] => Json.dumps x
  | x :: y :: rest => Json.dumps x ++ ", " ++ Json.dumpsList (y :: rest)

/-- Comma-separated rendering of a JSON object body. -/
def Json.dumpsObj : List (String × Json) → String
  | [] => ""
  | [p] => jsonQuote p.1 ++ ": " ++ Json.dumps p.2
  | p :: q :: rest => jsonQuote p.1 ++ ": " ++ Json.dumps p.2 ++ ", " ++ Json.dumpsObj (q :: rest)

end

/-- Response of the remote model for one issued call: the stripped response
text (what `_call_text` returns) and the result of stripping any code fence
and applying `json.loads` (what `_call_json_schema` parses; `none` models an
unparsable response). -/
structure Resp where
  parsed : Option Json
  text : String

/-- Observation tag attached to every issued remote call, recording the call
site and the claim-relevant parts of its payload. -/
inductive CallTag where
  | miniText (title : String) : CallTag
  | miniInitial (title : String) : CallTag
  | miniRegen (title : String) : CallTag
  | miniRepair (title : String) (missing : List String) : CallTag
  | figuresBatch (chunkId : Nat) (captions : List String) (relevant : List Json) : CallTag
  | finalReduce : CallTag
  | singleShot : CallTag
  | sectionChunk (name : String) : CallTag
  | reduceSect (name : String) : CallTag
  | keyPoints : CallTag

/-- Per-run state: `bumps` is `call_state["n"]` of the client wrapper
installed by `get_openai_client` (incremented on every attempt, also the
failing one), `issued` counts remote calls actually sent, `log` records the
issued calls in order. -/
structure RunState where
  bumps : Nat
  issued : Nat
  log : List CallTag

/-- Fresh state of a run (`get_openai_client` creates a fresh counter). -/
def initRun : RunState := ⟨0, 0, []⟩

/-- Run monad: state plus Python exceptions; the error also carries the state
at raise time so the number of issued calls is observable on failures. -/
def M (α : Type) : Type := RunState → Except (PyErr × RunState) (α × RunState)

instance : Monad M where
  pure a := fun st => .ok (a, st)
  bind m f := fun st =>
    match m st with
    | .ok (a, st') => f a st'
    | .error e => .error e

/-- Raise a Python exception. -/
def mthrow (e : PyErr) : M α := fun st => .error (e, st)

/-- Lift a pure Python computation. -/
def liftE : Except PyErr α → M α
  | .ok a => fun st => .ok (a, st)
  | .error e => fun st => .error (e, st)

/-- Ceiling `MAX_CALLS` of the client wrapper in `get_openai_client`. -/
def MAX_CALLS : Nat := 20

/-- One wrapped `chat.completions.create` call: `_bump` increments the counter
first and raises the budget error when the ceiling is exceeded, before the
remote call is issued; otherwise the call goes out and the oracle answers. -/
def remote_call (oracle : Nat → Resp) (tag : CallTag) : M Resp := fun st =>
  let n := st.bumps + 1
  if n > MAX_CALLS then .error (.budget, { st with bumps := n })
  else .ok (oracle st.bumps, { bumps := n, issued := st.issued + 1, log := st.log ++ [tag] })

/-- Embedded `_call_json_schema`: one wrapped remote call, then `json.loads`;
an unparsable response raises RuntimeError. -/
def call_json_schema (oracle : Nat → Resp) (tag : CallTag) : M Json := do
  let r ← remote_call oracle tag
  match r.parsed with
  | some j => pure j
  | none => mthrow (.runtimeError "Failed to parse model JSON output.")

/-- Embedded `_call_text`: one wrapped remote call returning stripped text. -/
def call_text (oracle : Nat → Resp) (tag : CallTag) : M String := do
  let r ← remote_call oracle tag
  pure (pstrip r.text)

/-- Embedded `_model_supports_schema`. -/
def model_supports_schema (model : String) : Bool :=
  if model.isEmpty then false else startsWithStr (lowerStr model) "gpt-5"

/-- Embedded `_lang_label`. -/
def lang_label (language : String) : String :=
  let lang := upperStr (pstrip language)
  if lang == "RU" || lang == "RUS" || lang == "RUSSIAN" then "Russian"
  else if lang == "EN" || lang == "ENG" || lang == "ENGLISH" then "English"
  else language

/-- Emptiness/placeholder test `not mini or mini in ("—","-","–") or len < 10`
shared by both paths of `_generate_result_mini_summary`. -/
def placeholderMini (m : String) : Bool :=
  m.isEmpty || m == "—" || m == "-" || m == "–" || m.length < 10

/-- Embedded `(out.get("mini_summary") or "").strip() if isinstance(out, dict)
else ""`. -/
def miniFromJson (out : Json) : Except PyErr String :=
  match out with
  | .obj kvs => pyStripAttr (pyOr ((jlookup kvs "mini_summary").getD .null) (.str ""))
  | _ => .ok ""

/-- Embedded `out.get("mini_summary", "")` as consumed by
`_contains_all_refs` (whose `text or ""` lets falsy values through and whose
`.strip()` raises on truthy non-strings). -/
def miniForRefs (out : Json) : Except PyErr String :=
  match out with
  | .obj kvs =>
      let v := (jlookup kvs "mini_summary").getD (.str "")
      if v.truthy then
        match v with
        | .str s => .ok s
        | _ => .error .attrError
      else .ok ""
  | _ => .error .attrError

/-- First part of the JSON path of `_generate_result_mini_summary`: initial
call, then one regeneration call if the mini-summary is empty, a placeholder
dash, or shorter than 10 characters; the regenerated output is adopted
unconditionally. -/
def mini_accept_stage (oracle : Nat → Resp) (section_title : String) : M Json := do
  let out ← call_json_schema oracle (.miniInitial section_title)
  let ms ← liftE (miniFromJson out)
  if placeholderMini ms then call_json_schema oracle (.miniRegen section_title)
  else pure out

/-- Second part of the JSON path of `_generate_result_mini_summary`: when
required references exist and some are missing from the accepted mini-summary,
issue exactly one repair call listing the missing references and return its
output verbatim; otherwise return the accepted output. -/
def mini_refs_stage (oracle : Nat → Resp) (section_title : String)
    (required : List String) (out : Json) : M Json :=
  if required.isEmpty then pure out
  else do
    let m ← liftE (miniForRefs out)
    let res := contains_all_refs m required
    if !res.1 && !res.2.isEmpty then
      call_json_schema oracle (.miniRepair section_title res.2)
    else pure out

/-- Embedded `_generate_result_mini_summary`: text-only fallback for models
without schema support, JSON path (accept stage then refs stage) otherwise. -/
def generate_result_mini_summary (oracle : Nat → Resp) (model : String)
    (section_title section_text : String) : M Json :=
  let required := extract_non_supp_figure_refs section_text
  if !model_supports_schema model then do
    let text ← call_text oracle (.miniText section_title)
    let mini := pstrip text
    let mini := if placeholderMini mini then "Summary generation failed." else mini
    pure (.obj [("section_title", .str section_title), ("mini_summary", .str mini)])
  else do
    let out ← mini_accept_stage oracle section_title
    mini_refs_stage oracle section_title required out

/-- Embedded caption extraction `(f.get("caption") or "").strip()`. -/
def cap_of_fig (f : Json) : Except PyErr String := do
  let c ← pyGet f "caption"
  pyStripAttr (pyOr c (.str ""))

/-- Normalized non-supplementary references of one mini-summary dict
(`extract_non_supp_figure_refs(item.get("mini_summary", ""))`, normalized). -/
def mini_refs_norms (item : Json) : Except PyErr (List String) := do
  let v ← pyGetD item "mini_summary" (.str "")
  let refs ← extractRefsJson v
  pure (refs.map normalize_fig_ref)

/-- Fuel-driven body of `chunksOf` (structural recursion on the fuel, which
callers instantiate with the list length). -/
def chunksOfF : Nat → Nat → List α → List (List α)
  | 0, _, _ => []
  | _, _, [] => []
  | _, 0, _ :: _ => []
  | fuel + 1, n + 1, x :: xs =>
      ((x :: xs).take (n + 1)) :: chunksOfF fuel (n + 1) ((x :: xs).drop (n + 1))

/-- Fixed-size batching `figures[i : i + batch_size]` preserving order. -/
def chunksOf (n : Nat) (l : List α) : List (List α) := chunksOfF l.length n l

/-- Embedded `out.get("narrative", "").strip()` of the figures batch loop. -/
def narrative_of_out (out : Json) : Except PyErr String :=
  match out with
  | .obj kvs => pyStripAttr ((jlookup kvs "narrative").getD (.str ""))
  | _ => .error .attrError

/-- Payload construction for one figures batch: non-empty stripped captions,
and the mini-summaries whose normalized references intersect the union of the
captions' normalized references (empty when that union is empty). -/
def figures_batch_payload (pre : List (Json × List String)) (batch : List Json) :
    Except PyErr (List String × List Json) := do
  let caps0 ← batch.mapM cap_of_fig
  let caps := caps0.filter (fun c => !c.isEmpty)
  let batchNorms := caps.foldl
    (fun acc c => acc ++ (extract_non_supp_figure_refs c).map normalize_fig_ref) []
  let relevant :=
    if batchNorms.isEmpty then []
    else (pre.filter (fun p => p.2.any (fun r => batchNorms.contains r))).map Prod.fst
  pure (caps, relevant)

/-- Batch loop of `_generate_figures_narrative_chunks`. -/
def figures_loop (oracle : Nat → Resp) (pre : List (Json × List String)) (idx : Nat) :
    List (List Json) → M (List String)
  | [] => pure []
  | batch :: rest => do
      let pay ← liftE (figures_batch_payload pre batch)
      let out ← call_json_schema oracle (.figuresBatch (idx + 1) pay.1 pay.2)
      let narr ← liftE (narrative_of_out out)
      let restRes ← figures_loop oracle pre (idx + 1) rest
      pure (narr :: restRes)

/-- Precomputation `mini_with_refs` of `_generate_figures_narrative_chunks`:
each mini-summary dict paired with its normalized reference set. -/
def pre_of (results_mini : List Json) : Except PyErr (List (Json × List String)) :=
  results_mini.mapM (fun item => do
    let ns ← mini_refs_norms item
    pure (item, ns))

/-- Embedded `_generate_figures_narrative_chunks`. -/
def generate_figures_narrative_chunks (oracle : Nat → Resp)
    (figures results_mini : List Json) (batch_size : Nat) : M (List String) := do
  let pre ← liftE (pre_of results_mini)
  if batch_size = 0 then mthrow (.valueError "range() arg 3 must not be zero")
  else figures_loop oracle pre 0 (chunksOf batch_size figures)

/-- Results-title rederivation of `_generate_final_summary_reduce`
(`article_json.get("results", [])`, titles stripped and filtered). -/
def reduce_titles (article : Json) : Except PyErr (List String) := do
  let raw ← pyGetD article "results" (.arr [])
  let items ← pyIter raw
  let ts ← items.mapM get_res_title
  pure (ts.filter (fun t => !t.isEmpty))

/-- Embedded `_generate_final_summary_reduce`: guard on titles, then a single
schema call producing the raw reduced summary. -/
def generate_final_summary_reduce (oracle : Nat → Resp) (article : Json) : M Json := do
  let titles ← liftE (reduce_titles article)
  if titles.isEmpty then mthrow (.valueError "No Results subsections found in input JSON.")
  else call_json_schema oracle .finalReduce

/-- Hard character-level split `p[i:i+max_chars]` of an oversized paragraph,
each piece stripped. -/
def hardSplit (p : String) (max_chars : Nat) : List String :=
  (chunksOf max_chars p.data).map (fun cs => pstrip (String.mk cs))

/-- Buffer step of `_split_text_into_chunks` over one paragraph; the state is
(emitted chunks, current buffer, current buffer length). -/
def splitStep (max_chars : Nat) (st : List String × List String × Nat) (p : String) :
    List String × List String × Nat :=
  let chunks := st.1
  let buf := st.2.1
  let blen := st.2.2
  if blen + p.length + 2 ≤ max_chars then (chunks, buf ++ [p], blen + p.length + 2)
  else
    let chunks := if buf.isEmpty then chunks else chunks ++ [pstrip (String.intercalate "\n\n" buf)]
    if p.length ≤ max_chars then (chunks, [p], p.length)
    else (chunks ++ hardSplit p max_chars, [], 0)

/-- Embedded `_split_text_into_chunks` (all call sites pass a positive
`max_chars`, the fixed 6000). -/
def split_text_into_chunks (text : String) (max_chars : Nat) : List String :=
  let t := pstrip text
  if t.isEmpty then []
  else
    let paras := ((splitOnStr t "\n\n").map pstrip).filter (fun p => !p.isEmpty)
    let fin := paras.foldl (splitStep max_chars) ([], [], 0)
    if fin.2.1.isEmpty then fin.1
    else fin.1 ++ [pstrip (String.intercalate "\n\n" fin.2.1)]

/-- Embedded `_summarize_section_chunk`: one schema call, tolerant mini
extraction. -/
def summarize_section_chunk (oracle : Nat → Resp) (section_name : String) : M String := do
  let out ← call_json_schema oracle (.sectionChunk section_name)
  liftE (miniFromJson out)

/-- Embedded `_reduce_section_summaries`.  The float products
`source_len * target_ratio` (ratio fixed at 0.30 by the callers) and
`target_chars * 1.15` are modelled by exact rational arithmetic with floor. -/
def reduce_section_summaries (oracle : Nat → Resp) (section_name : String)
    (source_len : Nat) : M String := do
  let target_chars := max 300 (source_len * 3 / 10)
  let hard_cap := target_chars * 115 / 100
  let out ← call_json_schema oracle (.reduceSect section_name)
  let txt ← liftE (match out with
    | .obj kvs => pyStripAttr (pyOr ((jlookup kvs "text").getD .null) (.str ""))
    | _ => .ok "")
  pure (if txt.length > hard_cap then prstrip (String.mk (txt.data.take hard_cap)) ++ "…" else txt)

/-- Map loop of `_summarize_long_section_map_reduce`: one chunk call each,
keeping the non-empty mini-summaries in order. -/
def section_chunks_loop (oracle : Nat → Resp) (section_name : String) :
    List String → M (List String)
  | [] => pure []
  | ch :: rest => do
      let _ := ch
      let ms ← summarize_section_chunk oracle section_name
      let restRes ← section_chunks_loop oracle section_name rest
      pure (if ms.isEmpty then restRes else ms :: restRes)

/-- Embedded `_summarize_long_section_map_reduce`. -/
def summarize_long_section_map_reduce (oracle : Nat → Resp) (section_name : String)
    (source_text : String) (chunk_chars : Nat) : M String := do
  let chunks := split_text_into_chunks source_text chunk_chars
  if chunks.isEmpty then pure ""
  else do
    let minis ← section_chunks_loop oracle section_name chunks
    let minis := if minis.isEmpty then [pstrip (String.mk (source_text.data.take 500))] else minis
    let _ := minis
    reduce_section_summaries oracle section_name source_text.length

/-- Key-point generation branch of `_ensure_key_points` (one schema call,
tolerant decoding of the returned list). -/
def ensure_key_points_gen (oracle : Nat → Resp) : M (List String) := do
  let out ← call_json_schema oracle .keyPoints
  let pts :=
    match out with
    | .obj kvs =>
        match (jlookup kvs "key_points").getD .null with
        | .arr xs => xs
        | _ => []
    | _ => []
  pure (pts.filterMap (fun x =>
    match x with
    | .str s => if (pstrip s).isEmpty then none else some (pstrip s)
    | _ => none))

/-- Embedded `_ensure_key_points`: keep existing non-empty key points, else
generate them from the already-produced summary with one call. -/
def ensure_key_points (oracle : Nat → Resp) (summary : Json) : M (List String) := do
  let kp ← liftE (pyGet summary "key_points")
  match kp with
  | .arr xs =>
      if xs.any (fun x =>
          match x with
          | .str s => !(pstrip s).isEmpty
          | _ => false) then
        pure (xs.filterMap (fun x =>
          match x with
          | .str s => if (pstrip s).isEmpty then none else some (pstrip s)
          | _ => none))
      else ensure_key_points_gen oracle
  | _ => ensure_key_points_gen oracle

/-- Python `d[k] = v` on a dynamic value (the normalized summary, always a
dict). -/
def pySetItem (j : Json) (k : String) (v : Json) : Except PyErr Json :=
  match j with
  | .obj kvs => .ok (.obj (jset kvs k v))
  | _ => .error .typeError

/-- Map loop of the hierarchical path of `generate_summary` over the raw
`results` entries: extract title and text, skip empty titles, generate one
mini-summary per section, repackage as `{"section_title", "mini_summary"}`. -/
def map_results_loop (oracle : Nat → Resp) (model : String) : List Json → M (List Json)
  | [] => pure []
  | r :: rest => do
      let title ← liftE (do
        let a ← pyGet r "title"
        let b ← pyGet r "section_title"
        pyStripAttr (pyOr a (pyOr b (.str ""))))
      let text ← liftE (do
        let a ← pyGet r "text"
        let b ← pyGet r "section_text"
        pyStripAttr (pyOr a (pyOr b (.str ""))))
      if title.isEmpty then map_results_loop oracle model rest
      else do
        let mini ← generate_result_mini_summary oracle model title text
        let st ← liftE (pySubscript mini "section_title")
        let ms ← liftE (pySubscript mini "mini_summary")
        let restRes ← map_results_loop oracle model rest
        pure (Json.obj [("section_title", st), ("mini_summary", ms)] :: restRes)

/-- Embedded `str(article_json.get(key) or "")` for the post-fill sources. -/
def article_text_field (article : Json) (key : String) : Except PyErr String := do
  let v ← pyGet article key
  pure (pyToStr (pyOr v (.str "")))

/-- Embedded `generate_summary` (strategy selection, single-shot and
hierarchical paths, post-fill).  The figures narrative stage is not invoked
by the source (`figures = ""` and the reduce call receives an empty
narrative), so it does not appear here either.  On the single-shot path the
source evaluates `final.get("introduction", "")` right after normalization,
but `final` is a local variable only ever assigned on the hierarchical path,
so CPython raises UnboundLocalError there. -/
def generate_summary (oracle : Nat → Resp) (article : Json) (model language : String)
    (strategy : String) (auto_threshold_chars : Nat)
    (header_defaults : Option (List (String × Json))) : M Json := do
  let titles ← liftE (get_results_titles_from_input article)
  if titles.isEmpty then mthrow (.valueError "No Results subsections found in input JSON.")
  else do
    let strat0 := lowerStr (pstrip (if strategy.isEmpty then "auto" else strategy))
    let strat :=
      if strat0 == "auto" then
        if !model_supports_schema model then "hierarchical"
        else if (Json.dumps article).length < auto_threshold_chars then "single_shot"
        else "hierarchical"
      else strat0
    if strat == "single_shot" then do
      let out ← call_json_schema oracle .singleShot
      let _ ← liftE (normalize_summary_output article out model language header_defaults)
      mthrow .unboundLocal
    else if strat != "hierarchical" then
      mthrow (.valueError ("Unknown strategy: " ++ strategy))
    else do
      let rawResults ← liftE (pyGetD article "results" (.arr []))
      let items ← liftE (pyIter rawResults)
      let results_mini ← map_results_loop oracle model items
      let got := results_mini.map (fun e =>
        match e with
        | .obj kvs => (jlookup kvs "section_title").getD .null
        | _ => .null)
      if !Json.eqbList got (titles.map Json.str) then
        mthrow (.runtimeError "Internal error: Results mini-summaries titles/order mismatch.")
      else do
        let red ← generate_final_summary_reduce oracle article
        let fin ← liftE (normalize_summary_output article red model language header_defaults)
        let srcIntro ← liftE (article_text_field article "introduction")
        let introTxt ← summarize_long_section_map_reduce oracle "Introduction" srcIntro 6000
        let fin ← if !introTxt.isEmpty then liftE (pySetItem fin "introduction" (.str introTxt)) else pure fin
        let srcDisc ← liftE (article_text_field article "discussion")
        let discTxt ← summarize_long_section_map_reduce oracle "Discussion" srcDisc 6000
        let fin ← if !discTxt.isEmpty then liftE (pySetItem fin "discussion" (.str discTxt)) else pure fin
        let kp ← ensure_key_points oracle fin
        liftE (pySetItem fin "key_points" (.arr (kp.map Json.str)))

/-- Budget counter state of the `_bump` wrapper of `get_openai_client`:
`n` is `call_state["n"]`, `issued` counts remote calls actually sent. -/
structure BudgetState where
  n : Nat
  issued : Nat
deriving DecidableEq

/-- One attempt through the wrapped `chat.completions.create`: `_bump` first
increments the counter and raises once it exceeds the ceiling — in that case
the remote call is never issued — otherwise the call goes out. -/
def wrapped_create_attempt (maxCalls : Nat) (st : BudgetState) : Except BudgetState BudgetState :=
  let n := st.n + 1
  if n > maxCalls then .error ⟨n, st.issued⟩ else .ok ⟨n, st.issued + 1⟩

/-- Sequence of `k` attempts against one client, stopping at the first budget
error (which aborts the run). -/
def runAttempts (maxCalls : Nat) : Nat → Except BudgetState BudgetState
  | 0 => .ok ⟨0, 0⟩
  | k + 1 =>
      match runAttempts maxCalls k with
      | .ok st => wrapped_create_attempt maxCalls st
      | .error e => .error e

/-- Success test on an embedded Python computation. -/
def exceptOK : Except PyErr α → Bool
  | .ok _ => true
  | .error _ => false

/-- Decidable well-shapedness of a model-returned summary: the three decoder
loops that can raise on truthy non-string fields inside entry dicts
(results list entries, figures items, abbreviation list entries) succeed.
Every other shape irregularity is absorbed without raising. -/
def well_shaped_summary (summary : Json) : Bool :=
  let kvs := summary_kvs summary
  let figs := match jlookup kvs "figures" with
    | some (.obj f) => f
    | _ => []
  exceptOK (results_by_title (jlookup kvs "results")) &&
  exceptOK (figures_items (jlookup figs "items")) &&
  exceptOK (abbr_pairs (jlookup kvs "abbreviations"))

/-- Observation tags of the figure-batch calls, one per batch in order,
starting at `chunk_id = idx + 1`. -/
def batch_tags (idx : Nat) : List (List String × List Json) → List CallTag
  | [] => []
  | p :: rest => .figuresBatch (idx + 1) p.1 p.2 :: batch_tags (idx + 1) rest

/-- Whitespace-separated concatenation of an extracted reference list, the
text form on which re-extraction is considered. -/
def joinRefs (rs : List String) : String := String.intercalate " " rs

/-- Article with one Results subsection whose text cites Figure 3. -/
def artOne : Json := .obj [("title", .str "T"), ("year", .num 2020),
  ("introduction", .str "intro text"), ("discussion", .str "disc text"),
  ("results", .arr [.obj [("title", .str "Sec A"), ("text", .str "blah Figure 3 blah")]])]

/-- Article with the two Results subsections of the spec scenario. -/
def artTwo : Json := .obj [("title", .str "T"), ("year", .num 2020),
  ("results", .arr [.obj [("title", .str "Discussion of X")],
                    .obj [("title", .str "Effects of Y")]])]

/-- Model output of the spec scenario: `results` as a map covering only the
first title. -/
def sumMap : Json := .obj [("results", .obj [("Discussion of X", .str "aaa")])]

/-- Malformed model output: a results entry whose `section_title` is a truthy
non-string, on which `.strip()` raises AttributeError. -/
def badSummary : Json := .obj [("results", .arr [.obj [("section_title", .num 5)]])]

/-- Oracle of a text-only model answering without the required reference. -/
def orclText : Nat → Resp := fun _ => ⟨none, "A text based answer without refs."⟩

/-- Oracle for the schema-path repair scenario: the first mini-summary is
acceptable but omits Figure 3, the repair response still omits it. -/
def orclRepairW : Nat → Resp := fun k =>
  if k = 0 then ⟨some (.obj [("section_title", .str "Sec A"),
    ("mini_summary", .str "A good long mini summary without the figure.")]), ""⟩
  else ⟨some (.obj [("section_title", .str "Sec A"),
    ("mini_summary", .str "Still no figure reference.")]), ""⟩

/-- Parsed repair response of `orclRepairW`. -/
def repairRespW : Json := .obj [("section_title", .str "Sec A"),
  ("mini_summary", .str "Still no figure reference.")]

/-- Oracle for the single-shot run (one parseable response suffices; the
branch crashes right after normalization). -/
def orclC9s : Nat → Resp := fun _ => ⟨some (.obj []), ""⟩

/-- Reduce response of the hierarchical C9 run: non-empty introduction and
key points. -/
def reduceRespC9 : Json := .obj [("results", .obj [("Sec A", .str "red")]),
  ("introduction", .str "REDUCE INTRO"), ("key_points", .arr [.str "kp"])]

/-- Oracle of the hierarchical C9 run: acceptable mini citing Figure 3, the
reduce response above, then chunk-map and merge responses for introduction
and discussion. -/
def orclC9h : Nat → Resp := fun k =>
  if k = 0 then ⟨some (.obj [("section_title", .str "Sec A"),
    ("mini_summary", .str "This mini summary cites Figure 3 properly.")]), ""⟩
  else if k = 1 then ⟨some reduceRespC9, ""⟩
  else if k = 2 then ⟨some (.obj [("mini_summary", .str "chunk intro mini over ten chars")]), ""⟩
  else if k = 3 then ⟨some (.obj [("text", .str "NEW INTRO")]), ""⟩
  else if k = 4 then ⟨some (.obj [("mini_summary", .str "chunk disc mini over ten chars")]), ""⟩
  else ⟨some (.obj [("text", .str "NEW DISC")]), ""⟩

/-- Oracle for the C7 witness: two figures in one batch, captions citing
Figure 1 only. -/
def orclFig : Nat → Resp := fun _ => ⟨some (.obj [("chunk_id", .num 1), ("narrative", .str "n")]), ""⟩

/-- Figures of the C7 witness. -/
def figsW : List Json := [.obj [("caption", .str "Figure 1 shows the setup.")],
  .obj [("caption", .str "  ")]]

/-- Mini-summaries of the C7 witness: the first cites figure 1, the second
cites only Figure 2, the third cites nothing. -/
def minisW : List Json := [
  .obj [("section_title", .str "A"), ("mini_summary", .str "About Figure 1 here.")],
  .obj [("section_title", .str "B"), ("mini_summary", .str "About Figure 2 only.")],
  .obj [("section_title", .str "C"), ("mini_summary", .str "No citations at all.")]]

/-- Restriction relation between a match attempt in context and the same
attempt standalone: equal results, unless the context result overruns the
length bound. -/
def OptR (L : Nat) (a b : Option Nat) : Prop := a = b ∨ ∃ m, m > L ∧ a = some m

/-- Separator-frame property of a pattern fragment: appending `t` behind the
input never changes the result, for continuation pairs that agree across the
appended tail. -/
def EqPat (t : List Char) (p : Pat) : Prop :=
  ∀ (kc ks : List Char → Option Nat), (∀ w', kc (w' ++ t) = ks w') →
    ∀ w, matchP p (w ++ t) kc = matchP p w ks

/-- Characters a `_FIG_REF_RE` match can end in. -/
def endCharOK (c : Char) : Bool := c.isDigit || c.isAlpha

/-- Possibly-consuming fragment: any successful match hands the continuation
a drop of the input, consuming nothing or ending in a `π` character. -/
def PCpat (π : Char → Bool) (p : Pat) : Prop :=
  ∀ s k v, matchP p s k = some v →
    ∃ n, n ≤ s.length ∧ k (s.drop n) = some v ∧
      (n = 0 ∨ (1 ≤ n ∧ ∃ c, (s.take n).getLast? = some c ∧ π c = true))

/-- Always-consuming fragment: any successful match consumes at least one
character and ends in a `π` character. -/
def ACpat (π : Char → Bool) (p : Pat) : Prop :=
  ∀ s k v, matchP p s k = some v →
    ∃ n, n ≤ s.length ∧ k (s.drop n) = some v ∧
      1 ≤ n ∧ ∃ c, (s.take n).getLast? = some c ∧ π c = true

/-- Shape of what follows the single-space separator in a joined reference
list: nothing, or a reference starting with `f`/`F`. -/
def vOKL (v : List Char) : Prop := v = [] ∨ ∃ c v', v = c :: v' ∧ lowerEq 'f' c = true

/-- Invariant of every reference the extractor returns: the whole string is a
match of `_FIG_REF_RE` on its own, and it starts with `f`/`F`. -/
def GoodRef (r : String) : Prop :=
  figMatchAt r.data = some r.data.length ∧
  ∃ c u', r.data = c :: u' ∧ lowerEq 'f' c = true

theorem runAttempts_ok (C : Nat) : ∀ k, k ≤ C → runAttempts C k = .ok ⟨k, k⟩ := by
  intro k
  induction k with
  | zero => intro _; rfl
  | succ n ih =>
      intro h
      have hn := Nat.le_of_succ_le h
      simp only [runAttempts, ih hn]
      simp [wrapped_create_attempt, Nat.not_lt.mpr h]

/-- C2: every remote call attempt goes through the client wrapper, whose
`_bump` increments the per-run counter first and checks the ceiling before
the call is issued.  With ceiling C, any k ≤ C attempts all succeed leaving
counter and issued-call count at k (no attempt at or below the ceiling
raises), and the (C+1)-th attempt raises the budget error with the counter
at C+1 while only C remote calls were ever issued — the error precedes the
remote call and aborts the run. -/
theorem claim_C2 (C k : Nat) (hk : k ≤ C) :
    runAttempts C k = .ok ⟨k, k⟩ ∧
    runAttempts C (C + 1) = .error ⟨C + 1, C⟩ := by
  refine ⟨runAttempts_ok C k hk, ?_⟩
  have h := runAttempts_ok C C (le_refl C)
  simp [runAttempts, h, wrapped_create_attempt]

theorem claim_C2_witness :
    runAttempts 2 2 = .ok ⟨2, 2⟩ ∧ runAttempts 2 3 = .error ⟨3, 2⟩ :=
  ⟨(claim_C2 2 2 (by decide)).1, (claim_C2 2 2 (by decide)).2⟩

/-- C3: whenever the input document yields no non-empty Results titles, the
run fails with the precondition ValueError before anything else happens — in
particular with zero issued remote calls (the returned state is the fresh
one) — for every oracle, model, language, strategy and threshold. -/
theorem claim_C3 (oracle : Nat → Resp) (article : Json) (model language strategy : String)
    (thr : Nat) (defaults : Option (List (String × Json)))
    (h : get_results_titles_from_input article = .ok []) :
    generate_summary oracle article model language strategy thr defaults initRun =
      .error (.valueError "No Results subsections found in input JSON.", initRun) := by
  unfold generate_summary
  rw [h]
  rfl

theorem claim_C3_witness :
    generate_summary orclText (.obj [("results", .arr [])]) "gpt-4" "ru" "bogus" 60000 none
      initRun =
      .error (.valueError "No Results subsections found in input JSON.", initRun) :=
  claim_C3 orclText (.obj [("results", .arr [])]) "gpt-4" "ru" "bogus" 60000 none rfl

/-- C9: the post-fill divergences.  The single-shot path evaluates
`final.get("introduction", "")` right after normalization although `final`
is only ever assigned on the hierarchical path, so any single-shot run dies
with UnboundLocalError after its one remote call.  On the hierarchical path
the introduction/discussion regeneration is unconditional: even though the
normalized reduce output already carries the non-empty introduction
"REDUCE INTRO", the final document's introduction is the regenerated
"NEW INTRO". -/
theorem claim_C9 :
    generate_summary orclC9s artOne "gpt-5" "en" "single_shot" 60000 none initRun =
      .error (.unboundLocal, ⟨1, 1, [.singleShot]⟩) ∧
    (∃ kvs st, generate_summary orclC9h artOne "gpt-5" "en" "hierarchical" 60000 none initRun =
        .ok (.obj kvs, st) ∧ jlookup kvs "introduction" = some (.str "NEW INTRO")) ∧
    (∃ kvs₂, normalize_summary_output artOne reduceRespC9 "gpt-5" "en" none = .ok (.obj kvs₂) ∧
        jlookup kvs₂ "introduction" = some (.str "REDUCE INTRO")) :=
  ⟨rfl, ⟨_, _, rfl, rfl⟩, ⟨_, rfl, rfl⟩⟩

theorem extractLoop_nonsupp :
    ∀ refs seen r, r ∈ extractLoop seen refs → is_supplementary_ref r = false := by
  intro refs
  induction refs with
  | nil => intro seen r h; simp [extractLoop] at h
  | cons a rest ih =>
      intro seen r h
      by_cases ha : is_supplementary_ref a
      · rw [extractLoop, if_pos ha] at h
        exact ih seen r h
      · rw [extractLoop, if_neg ha] at h
        by_cases hs : seen.contains (normalize_fig_ref a)
        · rw [if_pos hs] at h
          exact ih seen r h
        · rw [if_neg hs] at h
          rcases List.mem_cons.mp h with rfl | h'
          · exact Bool.eq_false_iff.mpr ha
          · exact ih _ r h'

/-- C5: the reference extractor never emits a supplementary reference, so no
supplementary reference can reach the required-references set used for
validation and repair (that set is `extract_non_supp_figure_refs` of the
section text); a reference containing the word "supplementary" in any case
is always classified supplementary, as are the spec's examples "Fig. S1"
and "Supplementary Figure 2". -/
theorem claim_C5 :
    (∀ text r, r ∈ extract_non_supp_figure_refs text → is_supplementary_ref r = false) ∧
    (∀ ref, containsSubstr (lowerStr ref) "supplementary" = true →
      is_supplementary_ref ref = true) ∧
    is_supplementary_ref "Fig. S1" = true ∧
    is_supplementary_ref "Supplementary Figure 2" = true := by
  refine ⟨?_, ?_, rfl, rfl⟩
  · intro text r h
    unfold extract_non_supp_figure_refs at h
    by_cases ht : text.isEmpty
    · rw [if_pos ht] at h; simp at h
    · rw [if_neg ht] at h
      exact extractLoop_nonsupp _ _ _ h
  · intro ref h
    unfold is_supplementary_ref
    simp [h]

theorem claim_C5_witness :
    is_supplementary_ref "Figure 3" = false ∧ is_supplementary_ref "Fig. S1" = true := by
  have he : extract_non_supp_figure_refs "see Figure 3" = ["Figure 3"] := rfl
  exact ⟨claim_C5.1 "see Figure 3" "Figure 3" (he.symm ▸ List.mem_singleton_self "Figure 3"),
    claim_C5.2.2.1⟩

/-- C4 counterexample: under the text-only model path ("gpt-4" does not
support schema output) the section text requires "Figure 3", the accepted
mini-summary omits it, yet the run makes exactly one remote call — the
text call — and no repair call, contradicting the claim that a repair call
is always issued when the accepted mini-summary omits a required
reference. -/
theorem claim_C4_cex :
    extract_non_supp_figure_refs "blah Figure 3 blah" = ["Figure 3"] ∧
    generate_result_mini_summary orclText "gpt-4" "Sec A" "blah Figure 3 blah" initRun =
      .ok (.obj [("section_title", .str "Sec A"),
                 ("mini_summary", .str "A text based answer without refs.")],
           ⟨1, 1, [.miniText "Sec A"]⟩) ∧
    (contains_all_refs "A text based answer without refs." ["Figure 3"]).1 = false :=
  ⟨rfl, rfl, rfl⟩

theorem M_bind_apply (m : M α) (f : α → M β) (st : RunState) :
    (m >>= f) st = match m st with
      | .ok (a, st') => f a st'
      | .error e => .error e := rfl

theorem liftE_ok_apply (a : α) (st : RunState) :
    liftE (Except.ok a) st = .ok (a, st) := rfl

theorem M_bind_ok (m : M α) (f : α → M β) (st st' : RunState) (a : α)
    (h : m st = .ok (a, st')) : (m >>= f) st = f a st' := by
  rw [M_bind_apply, h]

theorem M_bind_error (m : M α) (f : α → M β) (st : RunState) (e : PyErr × RunState)
    (h : m st = .error e) : (m >>= f) st = .error e := by
  rw [M_bind_apply, h]

/-- C4 as amended: on the JSON path (schema-supporting model), whenever the
required references are non-empty and the accepted mini-summary (output of
the initial call, regenerated once if empty/placeholder/short) misses some
of them, exactly one repair call is issued, tagged with exactly the missing
references, and its parsed response is returned verbatim with no further
attempt; on the text-only path no repair call is ever issued (the single
call is the text call). -/
theorem claim_C4 :
    (∀ (oracle : Nat → Resp) (model title text : String) (st : RunState)
      (out : Json) (st₁ : RunState) (m : String) (missing : List String) (d₂ : Json),
      model_supports_schema model = true →
      mini_accept_stage oracle title st = .ok (out, st₁) →
      miniForRefs out = .ok m →
      extract_non_supp_figure_refs text ≠ [] →
      contains_all_refs m (extract_non_supp_figure_refs text) = (false, missing) →
      (oracle st₁.bumps).parsed = some d₂ →
      st₁.bumps < MAX_CALLS →
      generate_result_mini_summary oracle model title text st =
        .ok (d₂, { bumps := st₁.bumps + 1, issued := st₁.issued + 1,
                   log := st₁.log ++ [.miniRepair title missing] })) ∧
    (∀ (oracle : Nat → Resp) (model title text : String) (st : RunState)
      (res : Json × RunState),
      model_supports_schema model = false →
      generate_result_mini_summary oracle model title text st = .ok res →
      res.2.log = st.log ++ [.miniText title]) := by
  constructor
  · intro oracle model title text st out st₁ m missing d₂ hm hacc hmini hreq hca hor hb
    have hre : (extract_non_supp_figure_refs text).isEmpty = false := by
      simpa [List.isEmpty_iff] using hreq
    have hmiss : missing.isEmpty = false := by
      have h1 : (contains_all_refs m (extract_non_supp_figure_refs text)).1 =
          ((extract_non_supp_figure_refs text).filter
            (fun r => !containsSubstr (normalize_fig_ref m) (normalize_fig_ref r))).isEmpty := by
        unfold contains_all_refs
        rw [if_neg (by simp [hre])]
      have h2 : (contains_all_refs m (extract_non_supp_figure_refs text)).2 =
          (extract_non_supp_figure_refs text).filter
            (fun r => !containsSubstr (normalize_fig_ref m) (normalize_fig_ref r)) := by
        unfold contains_all_refs
        rw [if_neg (by simp [hre])]
      rw [hca] at h1 h2
      simp only [← h2] at h1
      exact h1.symm
    unfold generate_result_mini_summary
    rw [hm]
    simp only [Bool.not_true, Bool.false_eq_true, if_false]
    rw [M_bind_ok _ _ _ _ _ hacc]
    unfold mini_refs_stage
    rw [if_neg (by simp [hre])]
    rw [M_bind_ok _ _ _ _ _ (by rw [hmini, liftE_ok_apply])]
    simp only [hca, hmiss, Bool.not_false, Bool.and_self, if_true]
    unfold call_json_schema
    rw [M_bind_ok _ _ _ _ _ (by unfold remote_call; rw [if_neg (by omega)])]
    simp only [hor]
    rfl
  · intro oracle model title text st res hm hres
    unfold generate_result_mini_summary at hres
    rw [hm] at hres
    simp only [Bool.not_false, if_true] at hres
    rw [M_bind_apply] at hres
    unfold call_text at hres
    rw [M_bind_apply] at hres
    unfold remote_call at hres
    by_cases hb : st.bumps + 1 > MAX_CALLS
    · rw [if_pos hb] at hres
      exact absurd hres (by simp)
    · rw [if_neg hb] at hres
      simp only [M_bind_apply] at hres
      cases hres
      rfl

theorem claim_C4_witness :
    generate_result_mini_summary orclRepairW "gpt-5" "Sec A" "blah Figure 3 blah" initRun =
      .ok (repairRespW,
        ⟨2, 2, [.miniInitial "Sec A", .miniRepair "Sec A" ["Figure 3"]]⟩) ∧
    (⟨1, 1, [CallTag.miniText "Sec A"]⟩ : RunState).log = initRun.log ++ [.miniText "Sec A"] := by
  constructor
  · exact claim_C4.1 orclRepairW "gpt-5" "Sec A" "blah Figure 3 blah" initRun
      (.obj [("section_title", .str "Sec A"),
             ("mini_summary", .str "A good long mini summary without the figure.")])
      ⟨1, 1, [.miniInitial "Sec A"]⟩
      "A good long mini summary without the figure." ["Figure 3"] repairRespW
      rfl rfl rfl
      (by intro h
          simp [show extract_non_supp_figure_refs "blah Figure 3 blah" = ["Figure 3"] from rfl] at h)
      rfl rfl (by decide)
  · exact claim_C4.2 orclText "gpt-4" "Sec A" "any text" initRun
      (.obj [("section_title", .str "Sec A"),
             ("mini_summary", .str "A text based answer without refs.")],
       ⟨1, 1, [.miniText "Sec A"]⟩) rfl rfl

theorem jlookup_jset_self (kvs : List (String × Json)) (k : String) (v : Json) :
    jlookup (jset kvs k v) k = some v := by
  induction kvs with
  | nil => simp [jset, jlookup]
  | cons p rest ih =>
      obtain ⟨k', v'⟩ := p
      by_cases hk : k' == k
      · simp [jset, hk, jlookup, List.find?, hk]
      · simp only [jset, hk, Bool.false_eq_true, if_false]
        simpa [jlookup, List.find?, hk] using ih

theorem jlookup_jset_ne (kvs : List (String × Json)) (k k' : String) (v : Json)
    (h : k' ≠ k) : jlookup (jset kvs k v) k' = jlookup kvs k' := by
  induction kvs with
  | nil =>
      have : (k == k') = false := by simpa [beq_iff_eq] using fun hh => h hh.symm
      simp [jset, jlookup, List.find?, this]
  | cons p rest ih =>
      obtain ⟨k₀, v₀⟩ := p
      by_cases hk : k₀ == k
      · have hk' : (k₀ == k') = false := by
          have : k₀ = k := by simpa [beq_iff_eq] using hk
          subst this
          simpa [beq_iff_eq] using fun hh => h hh.symm
        simp [jset, hk, jlookup, List.find?, hk']
      · simp only [jset, hk, Bool.false_eq_true, if_false]
        by_cases hk2 : k₀ == k'
        · simp [jlookup, List.find?, hk2]
        · simpa [jlookup, List.find?, hk2] using ih



@[simp] theorem ebind_error_eq {α β : Type} (e : PyErr) (f : α → Except PyErr β) :
    (Except.error e >>= f) = Except.error e := rfl

@[simp] theorem ebind_ok_eq {α β : Type} (a : α) (f : α → Except PyErr β) :
    (Except.ok a >>= f) = f a := rfl

@[simp] theorem emap_error_eq {α β : Type} (e : PyErr) (f : α → β) :
    ((Except.error e : Except PyErr α).map f) = Except.error e := rfl

@[simp] theorem emap_ok_eq {α β : Type} (a : α) (f : α → β) :
    ((Except.ok a : Except PyErr α).map f) = Except.ok (f a) := rfl

theorem exceptOK_iff {α : Type} (e : Except PyErr α) : exceptOK e = true ↔ ∃ a, e = .ok a := by
  cases e <;> simp [exceptOK]

theorem normalize_split (article summary : Json) (model language : String)
    (defaults : Option (List (String × Json))) (out : Json)
    (h : normalize_summary_output article summary model language defaults = .ok out) :
    ∃ out4, normalize_pre article summary model language defaults = .ok out4 ∧
      normalize_post article out4 = .ok out := by
  unfold normalize_summary_output at h
  cases hp : normalize_pre article summary model language defaults with
  | error e => rw [hp] at h; simp [Except.bind] at h
  | ok out4 =>
      rw [hp] at h
      simp only [Except.bind] at h
      exact ⟨out4, rfl, h⟩

theorem normalize_pre_ok (article summary : Json) (model language : String)
    (defaults : Option (List (String × Json))) (out4 : List (String × Json))
    (h : normalize_pre article summary model language defaults = .ok out4) :
    ∃ hdr, normalize_header article (summary_kvs summary) model language defaults = .ok hdr ∧
      out4 = normalize_pre_pure (summary_kvs summary) hdr := by
  unfold normalize_pre at h
  cases hh : normalize_header article (summary_kvs summary) model language defaults with
  | error e => rw [hh] at h; simp [Except.map] at h
  | ok hdr =>
      rw [hh] at h
      simp only [Except.map, Except.ok.injEq] at h
      exact ⟨hdr, rfl, h.symm⟩

theorem normalize_pre_pure_lookup (summ hdr : List (String × Json)) (k : String)
    (h1 : k ≠ "discussion") (h2 : k ≠ "introduction") (h3 : k ≠ "key_points")
    (h4 : k ≠ "header") :
    jlookup (normalize_pre_pure summ hdr) k = jlookup summ k := by
  unfold normalize_pre_pure
  simp only []
  rw [jlookup_jset_ne _ _ _ _ h1, jlookup_jset_ne _ _ _ _ h2,
    jlookup_jset_ne _ _ _ _ h3, jlookup_jset_ne _ _ _ _ h4]

theorem normalize_post_parts (article : Json) (out4 : List (String × Json)) (out : Json)
    (h : normalize_post article out4 = .ok out) :
    ∃ titles byTitle items pairs,
      get_results_titles_from_input article = .ok titles ∧ titles ≠ [] ∧
      results_by_title (jlookup out4 "results") = .ok byTitle ∧
      out = .obj (jset (out6_of (out5_of out4 titles byTitle) items)
        "abbreviations" (abbr_json pairs)) := by
  unfold normalize_post at h
  cases he : get_results_titles_from_input article with
  | error e => rw [he] at h; simp [Except.bind] at h
  | ok titles =>
      rw [he] at h
      simp only [Except.bind] at h
      by_cases hemp : titles.isEmpty
      · rw [if_pos hemp] at h; simp at h
      · rw [if_neg hemp] at h
        cases hbt : results_by_title (jlookup out4 "results") with
        | error e => rw [hbt] at h; simp [Except.bind] at h
        | ok byTitle =>
            rw [hbt] at h
            simp only [Except.bind] at h
            cases hfi : figures_items (jlookup (figs0_of (out5_of out4 titles byTitle)) "items") with
            | error e => rw [hfi] at h; simp at h
            | ok items =>
                rw [hfi] at h
                simp only [] at h
                cases hab : abbr_pairs (jlookup (out6_of (out5_of out4 titles byTitle) items)
                    "abbreviations") with
                | error e => rw [hab] at h; simp at h
                | ok pairs =>
                    rw [hab] at h
                    simp only [Except.ok.injEq] at h
                    exact ⟨titles, byTitle, items, pairs, rfl,
                      by simpa [List.isEmpty_iff] using hemp, rfl, h.symm⟩

/-- C1: whenever normalization returns a document, its `results` field is
rebuilt strictly from the input titles: one entry per input Results title,
in input order (hence exactly N entries for N titles), each entry echoing
the title and taking `mini_summary` from the tolerant decoding of the
model's `results` value (map shape or list-of-objects shape, decoded by
`results_by_title`), with the placeholder "—" substituted when no matching
entry exists (or the matching text is empty). -/
theorem claim_C1 (article summary : Json) (model language : String)
    (defaults : Option (List (String × Json))) (out : Json)
    (h : normalize_summary_output article summary model language defaults = .ok out) :
    ∃ titles byTitle kvs,
      get_results_titles_from_input article = .ok titles ∧ titles ≠ [] ∧
      results_by_title (jlookup (summary_kvs summary) "results") = .ok byTitle ∧
      out = .obj kvs ∧
      jlookup kvs "results" = some (.arr (titles.map (rebuilt_entry byTitle))) ∧
      (titles.map (rebuilt_entry byTitle)).length = titles.length ∧
      (∀ t, rebuilt_entry byTitle t =
        .obj [("section_title", .str t),
              ("mini_summary", .str (
                if ((alookup byTitle t).getD "—").isEmpty then "—"
                else (alookup byTitle t).getD "—"))]) := by
  obtain ⟨out4, hp, hpost⟩ := normalize_split _ _ _ _ _ _ h
  obtain ⟨hdr, hh, hout4⟩ := normalize_pre_ok _ _ _ _ _ _ hp
  obtain ⟨titles, byTitle, items, pairs, he, hne, hbt, hout⟩ := normalize_post_parts _ _ _ hpost
  have harg : jlookup out4 "results" = jlookup (summary_kvs summary) "results" := by
    rw [hout4]
    exact normalize_pre_pure_lookup _ _ _ (by decide) (by decide) (by decide) (by decide)
  refine ⟨titles, byTitle, _, he, hne, by rw [← harg]; exact hbt, hout, ?_, by simp, fun t => rfl⟩
  simp only [out6_of, out5_of]
  rw [jlookup_jset_ne _ _ _ _ (by decide), jlookup_jset_ne _ _ _ _ (by decide),
    jlookup_jset_self]

theorem claim_C1_witness :
    ∃ titles byTitle kvs,
      get_results_titles_from_input artTwo = .ok titles ∧ titles ≠ [] ∧
      results_by_title (jlookup (summary_kvs sumMap) "results") = .ok byTitle ∧
      (Json.obj [("results", .arr [
          .obj [("section_title", .str "Discussion of X"), ("mini_summary", .str "aaa")],
          .obj [("section_title", .str "Effects of Y"), ("mini_summary", .str "—")]]),
        ("header", .obj [("title", .str "T"), ("year", .num 2020), ("model", .str "m"),
          ("language", .str "EN"), ("source_path", .str "")]),
        ("key_points", .arr []), ("introduction", .str ""), ("discussion", .str ""),
        ("figures", .obj [("narrative", .str ""), ("items", .arr [])]),
        ("abbreviations", .arr [])]) = .obj kvs ∧
      jlookup kvs "results" = some (.arr (titles.map (rebuilt_entry byTitle))) ∧
      (titles.map (rebuilt_entry byTitle)).length = titles.length ∧
      (∀ t, rebuilt_entry byTitle t =
        .obj [("section_title", .str t),
              ("mini_summary", .str (
                if ((alookup byTitle t).getD "—").isEmpty then "—"
                else (alookup byTitle t).getD "—"))]) :=
  claim_C1 artTwo sumMap "m" "en" none _ rfl

theorem header_tail_model (hdr3 : List (String × Json)) (model language : String) :
    jlookup (header_tail hdr3 model language) "model" = some (.str model) := by
  unfold header_tail
  simp only []
  by_cases hsp : (jlookup (jset (jset hdr3 "model" (.str model)) "language"
      (.str (upperStr (pstrip language)))) "source_path").isNone
  · rw [if_pos hsp, jlookup_jset_ne _ _ _ _ (by decide), jlookup_jset_ne _ _ _ _ (by decide),
      jlookup_jset_self]
  · rw [if_neg hsp, jlookup_jset_ne _ _ _ _ (by decide), jlookup_jset_self]

theorem header_tail_language (hdr3 : List (String × Json)) (model language : String) :
    jlookup (header_tail hdr3 model language) "language" =
      some (.str (upperStr (pstrip language))) := by
  unfold header_tail
  simp only []
  by_cases hsp : (jlookup (jset (jset hdr3 "model" (.str model)) "language"
      (.str (upperStr (pstrip language)))) "source_path").isNone
  · rw [if_pos hsp, jlookup_jset_ne _ _ _ _ (by decide), jlookup_jset_self]
  · rw [if_neg hsp, jlookup_jset_self]

theorem header_tail_source_path (hdr3 : List (String × Json)) (model language : String) :
    ∃ v, jlookup (header_tail hdr3 model language) "source_path" = some v := by
  unfold header_tail
  simp only []
  by_cases hsp : (jlookup (jset (jset hdr3 "model" (.str model)) "language"
      (.str (upperStr (pstrip language)))) "source_path").isNone
  · exact ⟨.str "", by rw [if_pos hsp, jlookup_jset_self]⟩
  · rw [if_neg hsp]
    cases ho : jlookup (jset (jset hdr3 "model" (.str model)) "language"
        (.str (upperStr (pstrip language)))) "source_path" with
    | none => rw [ho] at hsp; simp at hsp
    | some v => exact ⟨v, rfl⟩

theorem normalize_header_ok (article : Json) (summ : List (String × Json))
    (model language : String) (defaults : Option (List (String × Json)))
    (hdr : List (String × Json))
    (h : normalize_header article summ model language defaults = .ok hdr) :
    ∃ hdr3, hdr = header_tail hdr3 model language := by
  unfold normalize_header at h
  cases h1 : header_title_step article (header_base summ defaults) with
  | error e => rw [h1] at h; simp [Except.bind] at h
  | ok hdr2 =>
      rw [h1] at h
      simp only [Except.bind] at h
      cases h2 : header_year_step article hdr2 with
      | error e => rw [h2] at h; simp [Except.bind] at h
      | ok hdr3 =>
          rw [h2] at h
          simp only [Except.bind, Except.ok.injEq] at h
          exact ⟨hdr3, h.symm⟩

/-- C10: whatever the model returned and whatever `header_defaults` contain,
the normalized header carries the run's model identifier, its language code
stripped and upper-cased, and some `source_path` value (defaulted to the
empty string when absent). -/
theorem claim_C10 (article summary : Json) (model language : String)
    (defaults : Option (List (String × Json))) (out : Json)
    (h : normalize_summary_output article summary model language defaults = .ok out) :
    ∃ kvs hdr, out = .obj kvs ∧
      jlookup kvs "header" = some (.obj hdr) ∧
      jlookup hdr "model" = some (.str model) ∧
      jlookup hdr "language" = some (.str (upperStr (pstrip language))) ∧
      ∃ v, jlookup hdr "source_path" = some v := by
  obtain ⟨out4, hp, hpost⟩ := normalize_split _ _ _ _ _ _ h
  obtain ⟨hdr, hh, hout4⟩ := normalize_pre_ok _ _ _ _ _ _ hp
  obtain ⟨titles, byTitle, items, pairs, he, hne, hbt, hout⟩ := normalize_post_parts _ _ _ hpost
  obtain ⟨hdr3, hhdr3⟩ := normalize_header_ok _ _ _ _ _ _ hh
  have hlk : jlookup (jset (out6_of (out5_of out4 titles byTitle) items)
      "abbreviations" (abbr_json pairs)) "header" = some (.obj hdr) := by
    simp only [out6_of, out5_of]
    rw [jlookup_jset_ne _ _ _ _ (by decide), jlookup_jset_ne _ _ _ _ (by decide),
      jlookup_jset_ne _ _ _ _ (by decide)]
    rw [hout4]
    unfold normalize_pre_pure
    simp only []
    rw [jlookup_jset_ne _ _ _ _ (by decide), jlookup_jset_ne _ _ _ _ (by decide),
      jlookup_jset_ne _ _ _ _ (by decide), jlookup_jset_self]
  refine ⟨_, hdr, hout, hlk, ?_, ?_, ?_⟩
  · rw [hhdr3]; exact header_tail_model hdr3 model language
  · rw [hhdr3]; exact header_tail_language hdr3 model language
  · rw [hhdr3]; exact header_tail_source_path hdr3 model language

theorem claim_C10_witness :
    ∃ kvs hdr,
      (Json.obj [("results", .arr [
          .obj [("section_title", .str "Discussion of X"), ("mini_summary", .str "aaa")],
          .obj [("section_title", .str "Effects of Y"), ("mini_summary", .str "—")]]),
        ("header", .obj [("title", .str "T"), ("year", .num 2020), ("model", .str "mdl"),
          ("language", .str "RU"), ("source_path", .str "")]),
        ("key_points", .arr []), ("introduction", .str ""), ("discussion", .str ""),
        ("figures", .obj [("narrative", .str ""), ("items", .arr [])]),
        ("abbreviations", .arr [])]) = .obj kvs ∧
      jlookup kvs "header" = some (.obj hdr) ∧
      jlookup hdr "model" = some (.str "mdl") ∧
      jlookup hdr "language" = some (.str (upperStr (pstrip " ru "))) ∧
      ∃ v, jlookup hdr "source_path" = some v :=
  claim_C10 artTwo sumMap "mdl" " ru " none _ rfl

/-- C6 counterexample: the normalizer does raise on malformed model output —
a results entry whose `section_title` is the number 5 drives `.strip()` into
an AttributeError — although the input document has a Results title. -/
theorem claim_C6_cex :
    normalize_summary_output artTwo badSummary "m" "en" none = .error .attrError := rfl

theorem titles_ok_article_obj (article : Json) (l : List String)
    (h : get_results_titles_from_input article = .ok l) :
    ∃ akvs, article = .obj akvs := by
  cases article with
  | obj akvs => exact ⟨akvs, rfl⟩
  | null => simp [get_results_titles_from_input, pyGet, pyGetD, Except.bind] at h
  | bool b => simp [get_results_titles_from_input, pyGet, pyGetD, Except.bind] at h
  | num n => simp [get_results_titles_from_input, pyGet, pyGetD, Except.bind] at h
  | str s => simp [get_results_titles_from_input, pyGet, pyGetD, Except.bind] at h
  | arr xs => simp [get_results_titles_from_input, pyGet, pyGetD, Except.bind] at h

theorem normalize_header_total (akvs : List (String × Json)) (summ : List (String × Json))
    (model language : String) (defaults : Option (List (String × Json))) :
    ∃ hdr, normalize_header (.obj akvs) summ model language defaults = .ok hdr := by
  unfold normalize_header header_title_step header_year_step
  by_cases h1 : ((jlookup (header_base summ defaults) "title").getD .null).truthy
  · rw [if_pos h1]
    simp only [Except.bind]
    by_cases h2 : (jlookup (header_base summ defaults) "year").isNone ||
        jIsNullOrEmptyStr ((jlookup (header_base summ defaults) "year").getD .null)
    · rw [if_pos h2]; exact ⟨_, rfl⟩
    · rw [if_neg h2]; exact ⟨_, rfl⟩
  · rw [if_neg h1]
    simp only [pyGetD, Except.bind]
    by_cases h2 : (jlookup (jset (header_base summ defaults) "title"
        (.str (pyToStr (pyOr ((jlookup akvs "title").getD (.str "")) (.str ""))))) "year").isNone ||
        jIsNullOrEmptyStr ((jlookup (jset (header_base summ defaults) "title"
        (.str (pyToStr (pyOr ((jlookup akvs "title").getD (.str "")) (.str ""))))) "year").getD .null)
    · rw [if_pos h2]; exact ⟨_, rfl⟩
    · rw [if_neg h2]; exact ⟨_, rfl⟩

/-- C6 as amended: the normalizer is a pure function issuing no remote call;
with no Results title in the input it raises exactly the precondition
ValueError, and for every well-shaped model output (the string-bearing
fields inside results-list entries, figures items and abbreviation entries
are strings or falsy — all other shape irregularities are tolerated) it
returns a document without raising.  On truthy non-string fields inside
those entries it can raise, which is what the counterexample exhibits. -/
theorem claim_C6 (article summary : Json) (model language : String)
    (defaults : Option (List (String × Json))) :
    (get_results_titles_from_input article = .ok [] →
      normalize_summary_output article summary model language defaults =
        .error (.valueError "No Results subsections found in input JSON.")) ∧
    (∀ t ts, get_results_titles_from_input article = .ok (t :: ts) →
      well_shaped_summary summary = true →
      ∃ out, normalize_summary_output article summary model language defaults = .ok out) := by
  constructor
  · intro h
    obtain ⟨akvs, rfl⟩ := titles_ok_article_obj _ _ h
    obtain ⟨hdr, hh⟩ := normalize_header_total akvs (summary_kvs summary) model language defaults
    unfold normalize_summary_output normalize_pre
    rw [hh]
    simp only [Except.map, Except.bind]
    unfold normalize_post
    rw [h]
    simp [Except.bind]
  · intro t ts h hws
    obtain ⟨akvs, rfl⟩ := titles_ok_article_obj _ _ h
    obtain ⟨hdr, hh⟩ := normalize_header_total akvs (summary_kvs summary) model language defaults
    unfold well_shaped_summary at hws
    simp only [Bool.and_eq_true] at hws
    obtain ⟨⟨hws1, hws2⟩, hws3⟩ := hws
    obtain ⟨byTitle, hbt⟩ := (exceptOK_iff _).mp hws1
    obtain ⟨items, hfi⟩ := (exceptOK_iff _).mp hws2
    obtain ⟨pairs, hab⟩ := (exceptOK_iff _).mp hws3
    unfold normalize_summary_output normalize_pre
    rw [hh]
    simp only [Except.map, Except.bind]
    unfold normalize_post
    rw [h]
    simp only [Except.bind, List.isEmpty_cons, Bool.false_eq_true, if_false]
    have e1 : jlookup (normalize_pre_pure (summary_kvs summary) hdr) "results" =
        jlookup (summary_kvs summary) "results" :=
      normalize_pre_pure_lookup _ _ _ (by decide) (by decide) (by decide) (by decide)
    rw [e1, hbt]
    simp only [Except.bind]
    have e2 : figs0_of (out5_of (normalize_pre_pure (summary_kvs summary) hdr) (t :: ts) byTitle) =
        (match jlookup (summary_kvs summary) "figures" with
         | some (.obj f) => f
         | _ => []) := by
      unfold figs0_of out5_of
      rw [jlookup_jset_ne _ _ _ _ (by decide),
        normalize_pre_pure_lookup _ _ _ (by decide) (by decide) (by decide) (by decide)]
    rw [e2, hfi]
    simp only [Except.bind]
    have e3 : jlookup (out6_of (out5_of (normalize_pre_pure (summary_kvs summary) hdr)
        (t :: ts) byTitle) items) "abbreviations" =
        jlookup (summary_kvs summary) "abbreviations" := by
      unfold out6_of out5_of
      rw [jlookup_jset_ne _ _ _ _ (by decide), jlookup_jset_ne _ _ _ _ (by decide),
        normalize_pre_pure_lookup _ _ _ (by decide) (by decide) (by decide) (by decide)]
    rw [e3, hab]
    simp only [Except.bind]
    exact ⟨_, rfl⟩

theorem claim_C6_witness :
    (get_results_titles_from_input (.obj [("results", .arr [])]) = .ok [] →
      normalize_summary_output (.obj [("results", .arr [])]) badSummary "m" "en" none =
        .error (.valueError "No Results subsections found in input JSON.")) ∧
    (∀ t ts, get_results_titles_from_input (.obj [("results", .arr [])]) = .ok (t :: ts) →
      well_shaped_summary badSummary = true →
      ∃ out, normalize_summary_output (.obj [("results", .arr [])]) badSummary "m" "en" none =
        .ok out) :=
  claim_C6 (.obj [("results", .arr [])]) badSummary "m" "en" none

theorem liftE_cases {α : Type} (e : Except PyErr α) (st : RunState) (a : α) (st' : RunState)
    (h : liftE e st = .ok (a, st')) : e = .ok a ∧ st' = st := by
  cases e with
  | ok b =>
      simp only [liftE] at h
      cases h
      exact ⟨rfl, rfl⟩
  | error ε => simp [liftE] at h

theorem call_json_schema_ok (oracle : Nat → Resp) (tag : CallTag) (st : RunState)
    (j : Json) (st₂ : RunState)
    (h : call_json_schema oracle tag st = .ok (j, st₂)) :
    st₂ = ⟨st.bumps + 1, st.issued + 1, st.log ++ [tag]⟩ ∧
    (oracle st.bumps).parsed = some j := by
  unfold call_json_schema at h
  rw [M_bind_apply] at h
  unfold remote_call at h
  by_cases hb : st.bumps + 1 > MAX_CALLS
  · rw [if_pos hb] at h; simp at h
  · rw [if_neg hb] at h
    simp only [] at h
    cases hp : (oracle st.bumps).parsed with
    | none => rw [hp] at h; simp [mthrow] at h
    | some p =>
        rw [hp] at h
        simp only [pure] at h
        cases h
        exact ⟨rfl, rfl⟩

theorem mapM_zip_ok {α β : Type} (f : α → Except PyErr β) :
    ∀ (l : List α) (res : List β), l.mapM f = .ok res →
      ∀ a b, (a, b) ∈ l.zip res → f a = .ok b := by
  intro l
  induction l with
  | nil => intro res h a b hm; simp at hm
  | cons x rest ih =>
      intro res h a b hm
      rw [List.mapM_cons] at h
      cases hfa : f x with
      | error e => rw [hfa] at h; simp at h
      | ok b0 =>
          rw [hfa] at h
          simp only [ebind_ok_eq] at h
          cases hrest : rest.mapM f with
          | error e => rw [hrest] at h; simp at h
          | ok bs0 =>
              rw [hrest] at h
              simp only [ebind_ok_eq, pure, Except.pure, Except.ok.injEq] at h
              subst h
              rcases List.mem_cons.mp hm with heq | hmem
              · cases heq; exact hfa
              · exact ih bs0 hrest a b hmem

theorem figures_loop_log (oracle : Nat → Resp) (pre : List (Json × List String)) :
    ∀ (batches : List (List Json)) (idx : Nat) (st : RunState) (res : List String)
      (st' : RunState),
      figures_loop oracle pre idx batches st = .ok (res, st') →
      ∃ pays, batches.mapM (figures_batch_payload pre) = .ok pays ∧
        st'.log = st.log ++ batch_tags idx pays := by
  intro batches
  induction batches with
  | nil =>
      intro idx st res st' h
      simp only [figures_loop, pure] at h
      cases h
      exact ⟨[], rfl, by simp [batch_tags]⟩
  | cons batch rest ih =>
      intro idx st res st' h
      unfold figures_loop at h
      cases hpay : figures_batch_payload pre batch with
      | error e => rw [M_bind_error _ _ _ _ (by rw [hpay]; rfl)] at h; simp at h
      | ok pay =>
          rw [M_bind_ok _ _ _ _ _ (by rw [hpay]; rfl)] at h
          cases hcall : call_json_schema oracle (.figuresBatch (idx + 1) pay.1 pay.2) st with
          | error e => rw [M_bind_error _ _ _ _ hcall] at h; simp at h
          | ok v =>
              obtain ⟨out, st₂⟩ := v
              rw [M_bind_ok _ _ _ _ _ hcall] at h
              obtain ⟨hst₂, _⟩ := call_json_schema_ok _ _ _ _ _ hcall
              cases hnarr : narrative_of_out out with
              | error e => rw [M_bind_error _ _ _ _ (by rw [hnarr]; rfl)] at h; simp at h
              | ok narr =>
                  rw [M_bind_ok _ _ _ _ _ (by rw [hnarr]; rfl)] at h
                  cases hrest : figures_loop oracle pre (idx + 1) rest st₂ with
                  | error e => rw [M_bind_error _ _ _ _ hrest] at h; simp at h
                  | ok v₂ =>
                      obtain ⟨rres, rst⟩ := v₂
                      rw [M_bind_ok _ _ _ _ _ hrest] at h
                      simp only [pure, Except.ok.injEq, Prod.mk.injEq] at h
                      obtain ⟨h1, h2⟩ := h
                      subst h2
                      obtain ⟨pays, hpays, hlog⟩ := ih (idx + 1) st₂ rres rst hrest
                      refine ⟨pay :: pays, ?_, ?_⟩
                      · rw [List.mapM_cons, hpay]
                        simp only [ebind_ok_eq, hpays, ebind_ok_eq]
                        rfl
                      · rw [hlog, hst₂]
                        simp [batch_tags]

theorem chunksOfF_join {α : Type} :
    ∀ (fuel n : Nat) (l : List α), n ≠ 0 → l.length ≤ fuel →
      (chunksOfF fuel n l).flatten = l := by
  intro fuel
  induction fuel with
  | zero =>
      intro n l hn hl
      have : l = [] := List.eq_nil_of_length_eq_zero (Nat.le_zero.mp hl)
      subst this
      cases n with
      | zero => exact absurd rfl hn
      | succ m => simp [chunksOfF]
  | succ f ih =>
      intro n l hn hl
      cases l with
      | nil => cases n with
        | zero => exact absurd rfl hn
        | succ m => simp [chunksOfF]
      | cons x xs =>
          cases n with
          | zero => exact absurd rfl hn
          | succ m =>
              simp only [chunksOfF, List.flatten_cons]
              rw [ih (m + 1) ((x :: xs).drop (m + 1)) hn
                (by simp only [List.length_drop, List.length_cons] at hl ⊢; omega)]
              exact List.take_append_drop _ _
  
theorem chunksOf_join {α : Type} (bs : Nat) (l : List α) (h : bs ≠ 0) :
    (chunksOf bs l).flatten = l :=
  chunksOfF_join _ _ _ h (le_refl _)

theorem chunksOfF_mem {α : Type} :
    ∀ (fuel n : Nat) (l : List α) (b : List α), b ∈ chunksOfF fuel n l →
      b ≠ [] ∧ b.length ≤ n := by
  intro fuel
  induction fuel with
  | zero => intro n l b hb; simp [chunksOfF] at hb
  | succ f ih =>
      intro n l b hb
      cases l with
      | nil => simp [chunksOfF] at hb
      | cons x xs =>
          cases n with
          | zero => simp [chunksOfF] at hb
          | succ m =>
              simp only [chunksOfF, List.mem_cons] at hb
              rcases hb with rfl | hb
              · exact ⟨by simp, by simp⟩
              · exact ih _ _ _ hb

theorem filter_inter_nil (pre : List (Json × List String)) :
    pre.filter (fun p => p.2.any (fun r => ([] : List String).contains r)) = [] := by
  apply List.filter_eq_nil_iff.mpr
  intro a _
  simp

theorem figures_batch_payload_ok (pre : List (Json × List String)) (batch : List Json)
    (pay : List String × List Json)
    (h : figures_batch_payload pre batch = .ok pay) :
    ∃ caps0, batch.mapM cap_of_fig = .ok caps0 ∧
      pay.1 = caps0.filter (fun c => !c.isEmpty) ∧
      pay.2 = (pre.filter (fun p => p.2.any (fun r =>
        (pay.1.foldl (fun acc c =>
          acc ++ (extract_non_supp_figure_refs c).map normalize_fig_ref) []).contains r))).map
        Prod.fst := by
  unfold figures_batch_payload at h
  cases hc : batch.mapM cap_of_fig with
  | error e => rw [hc] at h; simp at h
  | ok caps0 =>
      rw [hc] at h
      simp only [ebind_ok_eq, pure, Except.pure, Except.ok.injEq] at h
      subst h
      refine ⟨caps0, rfl, rfl, ?_⟩
      by_cases hbn : ((caps0.filter (fun c => !c.isEmpty)).foldl (fun acc c =>
          acc ++ (extract_non_supp_figure_refs c).map normalize_fig_ref) []).isEmpty
      · simp only [hbn, if_true]
        rw [List.isEmpty_iff.mp hbn]
        rw [filter_inter_nil]
        rfl
      · simp only [hbn, Bool.false_eq_true, if_false]

/-- C7: for every completed run of the figure narrative batcher, the figures
are partitioned into fixed-size batches preserving input order (the batches
concatenate back to the input, each non-empty and at most the batch size);
one model call is issued per batch in order, whose payload contains the
batch's non-empty stripped captions and exactly those mini-summaries, in
results order, whose normalized non-supplementary references intersect the
union of the batch captions' normalized references — disjoint ones are
excluded. -/
theorem claim_C7 (oracle : Nat → Resp) (figures results_mini : List Json) (bs : Nat)
    (st : RunState) (res : List String) (st' : RunState)
    (h : generate_figures_narrative_chunks oracle figures results_mini bs st = .ok (res, st')) :
    ∃ pre pays,
      pre_of results_mini = .ok pre ∧
      bs ≠ 0 ∧
      (chunksOf bs figures).flatten = figures ∧
      (∀ b ∈ chunksOf bs figures, b ≠ [] ∧ b.length ≤ bs) ∧
      (chunksOf bs figures).mapM (figures_batch_payload pre) = .ok pays ∧
      st'.log = st.log ++ batch_tags 0 pays ∧
      (∀ batch pay, (batch, pay) ∈ (chunksOf bs figures).zip pays →
        ∃ caps0, batch.mapM cap_of_fig = .ok caps0 ∧
          pay.1 = caps0.filter (fun c => !c.isEmpty) ∧
          pay.2 = (pre.filter (fun p => p.2.any (fun r =>
            (pay.1.foldl (fun acc c =>
              acc ++ (extract_non_supp_figure_refs c).map normalize_fig_ref) []).contains r))).map
            Prod.fst) := by
  unfold generate_figures_narrative_chunks at h
  cases hpre : pre_of results_mini with
  | error e => rw [M_bind_error _ _ _ _ (by rw [hpre]; rfl)] at h; simp at h
  | ok pre =>
      rw [M_bind_ok _ _ _ _ _ (by rw [hpre]; rfl)] at h
      by_cases hbs : bs = 0
      · rw [if_pos hbs] at h; simp [mthrow] at h
      · rw [if_neg hbs] at h
        obtain ⟨pays, hpays, hlog⟩ := figures_loop_log oracle pre (chunksOf bs figures) 0
          st res st' h
        refine ⟨pre, pays, rfl, hbs, chunksOf_join bs figures hbs,
          fun b hb => chunksOfF_mem _ _ _ _ hb, hpays, hlog, ?_⟩
        intro batch pay hm
        exact figures_batch_payload_ok pre batch pay
          (mapM_zip_ok _ _ _ hpays batch pay hm)

theorem claim_C7_witness :
    ∃ pre pays,
      pre_of minisW = .ok pre ∧
      (10 : Nat) ≠ 0 ∧
      (chunksOf 10 figsW).flatten = figsW ∧
      (∀ b ∈ chunksOf 10 figsW, b ≠ [] ∧ b.length ≤ 10) ∧
      (chunksOf 10 figsW).mapM (figures_batch_payload pre) = .ok pays ∧
      (⟨1, 1, [CallTag.figuresBatch 1 ["Figure 1 shows the setup."]
        [.obj [("section_title", .str "A"),
               ("mini_summary", .str "About Figure 1 here.")]]]⟩ : RunState).log =
        initRun.log ++ batch_tags 0 pays ∧
      (∀ batch pay, (batch, pay) ∈ (chunksOf 10 figsW).zip pays →
        ∃ caps0, batch.mapM cap_of_fig = .ok caps0 ∧
          pay.1 = caps0.filter (fun c => !c.isEmpty) ∧
          pay.2 = (pre.filter (fun p => p.2.any (fun r =>
            (pay.1.foldl (fun acc c =>
              acc ++ (extract_non_supp_figure_refs c).map normalize_fig_ref) []).contains r))).map
            Prod.fst) :=
  claim_C7 orclFig figsW minisW 10 initRun ["n"]
    ⟨1, 1, [CallTag.figuresBatch 1 ["Figure 1 shows the setup."]
      [.obj [("section_title", .str "A"),
             ("mini_summary", .str "About Figure 1 here.")]]]⟩ rfl

theorem matchLit_drop : ∀ (t s r : List Char), matchLit t s = some r →
    r = s.drop t.length ∧ t.length ≤ s.length := by
  intro t
  induction t with
  | nil =>
      intro s r h
      simp only [matchLit, Option.some.injEq] at h
      subst h
      simp
  | cons a ts ih =>
      intro s r h
      cases s with
      | nil => simp [matchLit] at h
      | cons c cs =>
          simp only [matchLit] at h
          by_cases hl : lowerEq a c
          · rw [if_pos hl] at h
            obtain ⟨h1, h2⟩ := ih cs r h
            constructor
            · simpa using h1
            · simpa using Nat.succ_le_succ h2
          · rw [if_neg hl] at h; exact absurd h (by simp)

theorem matchLit_head (a : Char) (tl s r : List Char) (h : matchLit (a :: tl) s = some r) :
    ∃ c cs, s = c :: cs ∧ lowerEq a c = true := by
  cases s with
  | nil => simp [matchLit] at h
  | cons c cs =>
      simp only [matchLit] at h
      by_cases hl : lowerEq a c
      · exact ⟨c, cs, rfl, hl⟩
      · rw [if_neg hl] at h; exact absurd h (by simp)

theorem tryDrops_origin : ∀ (i : Nat) (k : List Char → Option Nat) (s : List Char) (v : Nat),
    tryDrops k s i = some v → ∃ j, j ≤ i ∧ k (s.drop j) = some v := by
  intro i
  induction i with
  | zero => intro k s v h; exact ⟨0, le_refl 0, h⟩
  | succ m ih =>
      intro k s v h
      simp only [tryDrops] at h
      cases hk : k (s.drop (m + 1)) with
      | some w => rw [hk] at h; cases h; exact ⟨m + 1, le_refl _, hk⟩
      | none =>
          rw [hk] at h
          obtain ⟨j, hj, hkj⟩ := ih k s v h
          exact ⟨j, Nat.le_succ_of_le hj, hkj⟩

theorem tryDrops1_origin : ∀ (i : Nat) (k : List Char → Option Nat) (s : List Char) (v : Nat),
    tryDrops1 k s i = some v → ∃ j, 1 ≤ j ∧ j ≤ i ∧ k (s.drop j) = some v := by
  intro i
  induction i with
  | zero => intro k s v h; simp [tryDrops1] at h
  | succ m ih =>
      intro k s v h
      simp only [tryDrops1] at h
      cases hk : k (s.drop (m + 1)) with
      | some w => rw [hk] at h; cases h; exact ⟨m + 1, Nat.succ_le_succ (Nat.zero_le m), le_refl _, hk⟩
      | none =>
          rw [hk] at h
          obtain ⟨j, hj1, hj2, hkj⟩ := ih k s v h
          exact ⟨j, hj1, Nat.le_succ_of_le hj2, hkj⟩

theorem matchP_origin : ∀ (p : Pat) (s : List Char) (k : List Char → Option Nat) (v : Nat),
    matchP p s k = some v → ∃ r, r <:+ s ∧ k r = some v := by
  intro p
  induction p with
  | lit t =>
      intro s k v h
      unfold matchP at h
      cases hm : matchLit t s with
      | none => rw [hm] at h; exact absurd h (by simp)
      | some r =>
          rw [hm] at h
          obtain ⟨hr, _⟩ := matchLit_drop t s r hm
          exact ⟨r, hr ▸ List.drop_suffix _ _, h⟩
  | one q =>
      intro s k v h
      cases s with
      | nil => exact absurd h (by simp [matchP])
      | cons c cs =>
          rw [show matchP (.one q) (c :: cs) k = if q c then k cs else none from rfl] at h
          by_cases hq : q c
          · rw [if_pos hq] at h
            exact ⟨cs, List.suffix_cons c cs, h⟩
          · rw [if_neg hq] at h; exact absurd h (by simp)
  | run0 q =>
      intro s k v h
      unfold matchP at h
      obtain ⟨j, _, hkj⟩ := tryDrops_origin _ k s v h
      exact ⟨s.drop j, List.drop_suffix _ _, hkj⟩
  | run1 q =>
      intro s k v h
      unfold matchP at h
      obtain ⟨j, _, _, hkj⟩ := tryDrops1_origin _ k s v h
      exact ⟨s.drop j, List.drop_suffix _ _, hkj⟩
  | seq a b iha ihb =>
      intro s k v h
      unfold matchP at h
      obtain ⟨r₁, hs₁, h₁⟩ := iha s _ v h
      obtain ⟨r₂, hs₂, h₂⟩ := ihb r₁ k v h₁
      exact ⟨r₂, hs₂.trans hs₁, h₂⟩
  | opt a iha =>
      intro s k v h
      unfold matchP at h
      cases ha : matchP a s k with
      | some w => rw [ha] at h; cases h; obtain ⟨r, hs, hk⟩ := iha s k v ha; exact ⟨r, hs, hk⟩
      | none => rw [ha] at h; exact ⟨s, List.suffix_refl s, h⟩

theorem figMatchAt_origin (s : List Char) (n : Nat) (h : figMatchAt s = some n) :
    ∃ r, r <:+ s ∧ boundaryOK r = true ∧ s.length - r.length = n := by
  unfold figMatchAt at h
  obtain ⟨r, hs, hk⟩ := matchP_origin _ _ _ _ h
  by_cases hb : boundaryOK r
  · rw [if_pos hb] at hk
    cases hk
    exact ⟨r, hs, hb, rfl⟩
  · rw [if_neg hb] at hk; exact absurd hk (by simp)

theorem figMatchAt_le (s : List Char) (n : Nat) (h : figMatchAt s = some n) : n ≤ s.length := by
  obtain ⟨r, _, _, hn⟩ := figMatchAt_origin s n h
  omega

theorem matchP_seq_lit_none (t : List Char) (b : Pat) (s : List Char)
    (k : List Char → Option Nat) (hm : matchLit t s = none) :
    matchP (.seq (.lit t) b) s k = none := by
  show (match matchLit t s with
        | some r => matchP b r k
        | none => none) = none
  rw [hm]

theorem figMatchAt_head (s : List Char) (n : Nat) (h : figMatchAt s = some n) :
    (matchLit "supplementary".data s ≠ none) ∨
    (∃ c cs, s = c :: cs ∧ lowerEq 'f' c = true) := by
  unfold figMatchAt figRefPat at h
  rw [show (matchP (.seq (.opt (.seq (.lit "supplementary".data) (.run1 isWsChar))) figCorePat) s
      (fun r => if boundaryOK r = true then some (s.length - r.length) else none)) =
    (match matchP (.seq (.lit "supplementary".data) (.run1 isWsChar)) s
        (fun r => matchP figCorePat r
          (fun r => if boundaryOK r = true then some (s.length - r.length) else none)) with
      | some v => some v
      | none => matchP figCorePat s
          (fun r => if boundaryOK r = true then some (s.length - r.length) else none)) from rfl] at h
  cases hsup : matchP (.seq (.lit "supplementary".data) (.run1 isWsChar)) s
      (fun r => matchP figCorePat r
        (fun r => if boundaryOK r = true then some (s.length - r.length) else none)) with
  | some v =>
      left
      intro hnone
      rw [matchP_seq_lit_none _ _ _ _ hnone] at hsup
      exact absurd hsup (by simp)
  | none =>
      rw [hsup] at h
      right
      cases hm : matchLit "fig".data s with
      | none =>
          unfold figCorePat at h
          rw [matchP_seq_lit_none _ _ _ _ hm] at h
          exact absurd h (by simp)
      | some r => exact matchLit_head _ _ _ _ hm

theorem runLen_le (p : Char → Bool) : ∀ s : List Char, runLen p s ≤ s.length := by
  intro s
  induction s with
  | nil => simp [runLen]
  | cons c cs ih =>
      simp only [runLen]
      by_cases hp : p c
      · rw [if_pos hp]; simpa using Nat.succ_le_succ ih
      · rw [if_neg hp]; simp

theorem runLen_take_all (p : Char → Bool) : ∀ (s : List Char) (j : Nat), j ≤ runLen p s →
    ∀ c ∈ s.take j, p c = true := by
  intro s
  induction s with
  | nil => intro j _ c hc; simp at hc
  | cons a cs ih =>
      intro j hj c hc
      cases j with
      | zero => simp at hc
      | succ m =>
          simp only [runLen] at hj
          by_cases hp : p a
          · rw [if_pos hp] at hj
            simp only [List.take_succ_cons, List.mem_cons] at hc
            rcases hc with rfl | hc
            · exact hp
            · exact ih m (Nat.le_of_succ_le_succ hj) c hc
          · rw [if_neg hp] at hj; omega

theorem take_drop_getLast (s : List Char) (a b : Nat) (hb : 1 ≤ b)
    (hlen : b ≤ (s.drop a).length) :
    (s.take (a + b)).getLast? = ((s.drop a).take b).getLast? := by
  rw [List.take_add]
  refine List.getLast?_append_of_ne_nil _ ?_
  apply List.ne_nil_of_length_pos
  rw [List.length_take]
  omega

theorem take_nonempty_getLast (s : List Char) (j : Nat) (h1 : 1 ≤ j) (h2 : j ≤ s.length) :
    ∃ c, (s.take j).getLast? = some c ∧ c ∈ s.take j := by
  have hne : s.take j ≠ [] := by
    apply List.ne_nil_of_length_pos
    rw [List.length_take]
    omega
  obtain ⟨c, hc⟩ := Option.isSome_iff_exists.mp (List.getLast?_isSome.mpr hne)
  exact ⟨c, hc, List.mem_of_mem_getLast? hc⟩

theorem PC_of_AC (π : Char → Bool) (p : Pat) (h : ACpat π p) : PCpat π p := by
  intro s k v hm
  obtain ⟨n, h1, h2, h3, h4⟩ := h s k v hm
  exact ⟨n, h1, h2, Or.inr ⟨h3, h4⟩⟩

theorem AC_one (π q : Char → Bool) (hq : ∀ c, q c = true → π c = true) : ACpat π (.one q) := by
  intro s k v hm
  cases s with
  | nil => exact absurd hm (by simp [matchP])
  | cons c cs =>
      rw [show matchP (.one q) (c :: cs) k = if q c then k cs else none from rfl] at hm
      by_cases hc : q c
      · rw [if_pos hc] at hm
        refine ⟨1, by simp, by simpa using hm, le_refl 1, c, by simp, hq c hc⟩
      · rw [if_neg hc] at hm; exact absurd hm (by simp)

theorem AC_run1 (π q : Char → Bool) (hq : ∀ c, q c = true → π c = true) :
    ACpat π (.run1 q) := by
  intro s k v hm
  unfold matchP at hm
  obtain ⟨j, hj1, hj2, hk⟩ := tryDrops1_origin _ k s v hm
  have hjl : j ≤ s.length := le_trans hj2 (runLen_le q s)
  obtain ⟨c, hc, hcm⟩ := take_nonempty_getLast s j hj1 hjl
  exact ⟨j, hjl, hk, hj1, c, hc, hq c (runLen_take_all q s j hj2 c hcm)⟩

theorem PC_run0 (π q : Char → Bool) (hq : ∀ c, q c = true → π c = true) :
    PCpat π (.run0 q) := by
  intro s k v hm
  unfold matchP at hm
  obtain ⟨j, hj2, hk⟩ := tryDrops_origin _ k s v hm
  have hjl : j ≤ s.length := le_trans hj2 (runLen_le q s)
  cases Nat.eq_zero_or_pos j with
  | inl hz => exact ⟨j, hjl, hk, Or.inl hz⟩
  | inr hpos =>
      obtain ⟨c, hc, hcm⟩ := take_nonempty_getLast s j hpos hjl
      exact ⟨j, hjl, hk, Or.inr ⟨hpos, c, hc, hq c (runLen_take_all q s j hj2 c hcm)⟩⟩

theorem PC_opt (π : Char → Bool) (p : Pat) (h : PCpat π p) : PCpat π (.opt p) := by
  intro s k v hm
  unfold matchP at hm
  cases ha : matchP p s k with
  | some w => rw [ha] at hm; cases hm; exact h s k v ha
  | none => rw [ha] at hm; exact ⟨0, Nat.zero_le _, by simpa using hm, Or.inl rfl⟩

theorem AC_seq_right (π : Char → Bool) (a b : Pat) (hb : ACpat π b) :
    ACpat π (.seq a b) := by
  intro s k v hm
  unfold matchP at hm
  obtain ⟨r, hsuf, hr⟩ := matchP_origin a s _ v hm
  obtain ⟨n₂, h1, h2, h3, c, hc, hπ⟩ := hb r k v hr
  have hrd : r = s.drop (s.length - r.length) := List.suffix_iff_eq_drop.mp hsuf
  have hrl : r.length ≤ s.length := hsuf.length_le
  refine ⟨(s.length - r.length) + n₂, by omega, ?_, by omega, c, ?_, hπ⟩
  · rw [← List.drop_drop, ← hrd]
    exact h2
  · rw [take_drop_getLast s _ n₂ h3 (by rw [← hrd]; omega), ← hrd]
    exact hc

theorem AC_seq_left_PC (π : Char → Bool) (a b : Pat) (ha : ACpat π a) (hb : PCpat π b) :
    ACpat π (.seq a b) := by
  intro s k v hm
  unfold matchP at hm
  obtain ⟨n₁, h1, h2, h3, c₁, hc₁, hπ₁⟩ := ha s _ v hm
  obtain ⟨n₂, g1, g2, g3⟩ := hb _ k v h2
  simp only [List.length_drop] at g1
  refine ⟨n₁ + n₂, by omega, ?_, by omega, ?_⟩
  · rw [← List.drop_drop]; exact g2
  · rcases g3 with hz | ⟨hpos, c₂, hc₂, hπ₂⟩
    · refine ⟨c₁, ?_, hπ₁⟩
      rw [hz]
      simpa using hc₁
    · refine ⟨c₂, ?_, hπ₂⟩
      rw [take_drop_getLast s n₁ n₂ hpos (by simp only [List.length_drop]; omega)]
      exact hc₂

theorem PC_seq (π : Char → Bool) (a b : Pat) (ha : PCpat π a) (hb : PCpat π b) :
    PCpat π (.seq a b) := by
  intro s k v hm
  unfold matchP at hm
  obtain ⟨n₁, h1, h2, h3⟩ := ha s _ v hm
  obtain ⟨n₂, g1, g2, g3⟩ := hb _ k v h2
  simp only [List.length_drop] at g1
  refine ⟨n₁ + n₂, by omega, ?_, ?_⟩
  · rw [← List.drop_drop]; exact g2
  · rcases g3 with hz2 | ⟨hpos2, c₂, hc₂, hπ₂⟩
    · subst hz2
      rcases h3 with hz1 | ⟨hpos1, c₁, hc₁, hπ₁⟩
      · exact Or.inl (by omega)
      · exact Or.inr ⟨by omega, c₁, by simpa using hc₁, hπ₁⟩
    · refine Or.inr ⟨by omega, c₂, ?_, hπ₂⟩
      rw [take_drop_getLast s n₁ n₂ hpos2 (by simp only [List.length_drop]; omega)]
      exact hc₂

theorem digit_endOK (c : Char) (h : isDigitChar c = true) : endCharOK c = true := by
  simp only [isDigitChar] at h
  simp [endCharOK, h]

theorem letter_endOK (c : Char) (h : isLetterChar c = true) : endCharOK c = true := by
  simp only [isLetterChar] at h
  simp [endCharOK, h]

theorem AC_digits_tail : ACpat endCharOK (.seq (.run1 isDigitChar) figTailPat) := by
  refine AC_seq_left_PC _ _ _ (AC_run1 _ _ digit_endOK) ?_
  unfold figTailPat
  refine PC_seq _ _ _ (PC_opt _ _ (PC_of_AC _ _ (AC_one _ _ letter_endOK))) ?_
  refine PC_seq _ _ _ ?_ (PC_opt _ _ (PC_of_AC _ _ (AC_one _ _ letter_endOK)))
  refine PC_opt _ _ (PC_of_AC _ _ ?_)
  refine AC_seq_right _ _ _ ?_
  refine AC_seq_right _ _ _ ?_
  refine AC_seq_right _ _ _ ?_
  exact AC_seq_left_PC _ _ _ (AC_run1 _ _ digit_endOK)
    (PC_opt _ _ (PC_of_AC _ _ (AC_one _ _ letter_endOK)))

theorem AC_figRefPat : ACpat endCharOK figRefPat := by
  unfold figRefPat figCorePat
  refine AC_seq_right _ _ _ ?_
  refine AC_seq_right _ _ _ ?_
  refine AC_seq_right _ _ _ ?_
  refine AC_seq_right _ _ _ ?_
  refine AC_seq_right _ _ _ ?_
  refine AC_seq_right _ _ _ ?_
  refine AC_seq_right _ _ _ ?_
  exact AC_digits_tail

theorem figMatchAt_endOK (s : List Char) (n : Nat) (h : figMatchAt s = some n) :
    1 ≤ n ∧ ∃ c, (s.take n).getLast? = some c ∧ endCharOK c = true := by
  unfold figMatchAt at h
  obtain ⟨m, h1, h2, h3, c, hc, hπ⟩ := AC_figRefPat s _ n h
  by_cases hb : boundaryOK (s.drop m)
  · rw [if_pos hb] at h2
    simp only [List.length_drop, Option.some.injEq] at h2
    have hnm : n = m := by omega
    subst hnm
    exact ⟨h3, c, hc, hπ⟩
  · rw [if_neg hb] at h2; exact absurd h2 (by simp)

theorem char_toNat_inj (a b : Char) (h : a.toNat = b.toNat) : a = b :=
  Char.ext (UInt32.ext h)

theorem char_toNat_ofNat (n : Nat) (h : n < 55296) : (Char.ofNat n).toNat = n := by
  have hv : n.isValidChar := Or.inl h
  unfold Char.ofNat
  rw [dif_pos hv]
  unfold Char.ofNatAux Char.toNat
  exact BitVec.toNat_ofNatLt n (by omega)

theorem toLower_elim (c : Char) :
    Char.toLower c = c ∨
    (65 ≤ c.toNat ∧ c.toNat ≤ 90 ∧ (Char.toLower c).toNat = c.toNat + 32) := by
  unfold Char.toLower
  by_cases hc : c.toNat ≥ 65 ∧ c.toNat ≤ 90
  · right
    refine ⟨hc.1, hc.2, ?_⟩
    simp only [hc, if_pos, and_self, if_true]
    exact char_toNat_ofNat (c.toNat + 32) (by omega)
  · left
    simp only [if_neg hc]

theorem char_lt_valid (c : Char) : c.toNat < 1114112 := by
  have := c.valid
  rcases this with h | ⟨_, h⟩
  · exact Nat.lt_trans h (by omega)
  · exact h

theorem lowerEq_elim (a c : Char) (h : lowerEq a c = true) :
    Char.toLower c = Char.toLower a := by
  simp only [lowerEq, beq_iff_eq] at h
  exact h.symm

theorem lowerEq_f_cases (c : Char) (h : lowerEq 'f' c = true) : c = 'f' ∨ c = 'F' := by
  have hl : Char.toLower c = 'f' := by
    rw [lowerEq_elim 'f' c h]; decide
  rcases toLower_elim c with he | ⟨h65, h90, htn⟩
  · left; rw [← he, hl]
  · right
    apply char_toNat_inj
    rw [hl] at htn
    have h102 : Char.toNat 'f' = 102 := by decide
    have h70 : Char.toNat 'F' = 70 := by decide
    omega

theorem lowerEq_s_cases (c : Char) (h : lowerEq 's' c = true) : c = 's' ∨ c = 'S' := by
  have hl : Char.toLower c = 's' := by
    rw [lowerEq_elim 's' c h]; decide
  rcases toLower_elim c with he | ⟨h65, h90, htn⟩
  · left; rw [← he, hl]
  · right
    apply char_toNat_inj
    rw [hl] at htn
    have h115 : Char.toNat 's' = 115 := by decide
    have h83 : Char.toNat 'S' = 83 := by decide
    omega

theorem figMatchAt_start (s : List Char) (n : Nat) (h : figMatchAt s = some n) :
    ∃ c cs, s = c :: cs ∧ (lowerEq 'f' c = true ∨ lowerEq 's' c = true) := by
  rcases figMatchAt_head s n h with hsup | ⟨c, cs, rfl, hf⟩
  · cases hm : matchLit "supplementary".data s with
    | none => exact absurd hm hsup
    | some r =>
        have hs : "supplementary".data = 's' :: "upplementary".data := rfl
        rw [hs] at hm
        obtain ⟨c, cs, rfl, hc⟩ := matchLit_head _ _ _ _ hm
        exact ⟨c, cs, rfl, Or.inr hc⟩
  · exact ⟨c, cs, rfl, Or.inl hf⟩

theorem endOK_not_ws (c : Char) (h : endCharOK c = true) : isWsChar c = false := by
  by_contra hw
  rw [Bool.not_eq_false] at hw
  simp only [isWsChar, Bool.or_eq_true, beq_iff_eq] at hw
  rcases hw with ((rfl | rfl) | (rfl | rfl)) | (rfl | rfl) <;> exact absurd h (by decide)

theorem endOK_word (c : Char) (h : endCharOK c = true) : wordChar c = true := by
  simp only [endCharOK, Bool.or_eq_true] at h
  simp only [wordChar, Bool.or_eq_true]
  tauto

theorem startFS_not_ws (c : Char) (h : lowerEq 'f' c = true ∨ lowerEq 's' c = true) :
    isWsChar c = false := by
  rcases h with hc | hc
  · rcases lowerEq_f_cases c hc with rfl | rfl <;> decide
  · rcases lowerEq_s_cases c hc with rfl | rfl <;> decide

theorem stripChars_noop (l : List Char)
    (h1 : ∀ c, l.head? = some c → isWsChar c = false)
    (h2 : ∀ c, l.getLast? = some c → isWsChar c = false) :
    stripChars l = l := by
  cases l with
  | nil => rfl
  | cons a as =>
      unfold stripChars
      rw [List.dropWhile_cons, if_neg (by simp [h1 a rfl])]
      cases hrev : (a :: as).reverse with
      | nil => exact absurd hrev (by simp)
      | cons b bs =>
          have hgl : (a :: as).getLast? = some b := by
            rw [← List.head?_reverse, hrev]; rfl
          rw [List.dropWhile_cons, if_neg (by simp [h2 b hgl])]
          rw [← hrev, List.reverse_reverse]

theorem OptR_refl (L : Nat) (a : Option Nat) : OptR L a a := Or.inl rfl

theorem OptR_trans (L : Nat) (a b c : Option Nat) (h1 : OptR L a b) (h2 : OptR L b c) :
    OptR L a c := by
  rcases h1 with rfl | ⟨m, hm, ha⟩
  · exact h2
  · exact Or.inr ⟨m, hm, ha⟩

theorem matchLit_append (t : List Char) : ∀ (w r post : List Char), matchLit t w = some r →
    matchLit t (w ++ post) = some (r ++ post) := by
  induction t with
  | nil =>
      intro w r post h
      simp only [matchLit, Option.some.injEq] at h
      subst h
      rfl
  | cons a ts ih =>
      intro w r post h
      cases w with
      | nil => simp [matchLit] at h
      | cons c cs =>
          simp only [matchLit] at h
          simp only [List.cons_append, matchLit]
          by_cases hl : lowerEq a c
          · rw [if_pos hl] at h ⊢
            exact ih cs r post h
          · rw [if_neg hl] at h; exact absurd h (by simp)

theorem matchLit_cross (t : List Char) : ∀ (w post r : List Char), matchLit t w = none →
    matchLit t (w ++ post) = some r → r <:+ post ∧ r.length < post.length := by
  induction t with
  | nil => intro w post r h _; simp [matchLit] at h
  | cons a ts ih =>
      intro w post r hn hc
      cases w with
      | nil =>
          simp only [List.nil_append] at hc
          obtain ⟨hr, hl⟩ := matchLit_drop (a :: ts) post r hc
          subst hr
          refine ⟨List.drop_suffix _ _, ?_⟩
          simp only [List.length_cons] at hl
          simp only [List.length_drop, List.length_cons]
          omega
      | cons c cs =>
          simp only [matchLit] at hn
          simp only [List.cons_append, matchLit] at hc
          by_cases hl : lowerEq a c
          · rw [if_pos hl] at hn hc
            exact ih cs post r hn hc
          · rw [if_neg hl] at hc; exact absurd hc (by simp)

theorem runLen_append_lt (q : Char → Bool) : ∀ (w post : List Char),
    runLen q w < w.length → runLen q (w ++ post) = runLen q w := by
  intro w
  induction w with
  | nil => intro post h; simp [runLen] at h
  | cons c cs ih =>
      intro post h
      rw [List.cons_append]
      simp only [runLen, List.length_cons] at h ⊢
      by_cases hq : q c
      · simp only [if_pos hq] at h ⊢
        rw [ih post (by omega)]
      · simp only [if_neg hq]

theorem runLen_append_all (q : Char → Bool) : ∀ (w post : List Char),
    runLen q w = w.length → runLen q (w ++ post) = w.length + runLen q post := by
  intro w
  induction w with
  | nil => intro post _; simp [runLen]
  | cons c cs ih =>
      intro post h
      rw [List.cons_append]
      simp only [runLen, List.length_cons] at h ⊢
      by_cases hq : q c
      · simp only [if_pos hq] at h ⊢
        rw [ih post (by omega)]
        omega
      · simp only [if_neg hq] at h; omega

theorem matchP_big (L : Nat) (post : List Char) (b : Pat) (kc : List Char → Option Nat)
    (h2 : ∀ r, r <:+ post → r.length < post.length → ∀ v, kc r = some v → v > L) :
    ∀ r, r <:+ post → r.length < post.length → ∀ v, matchP b r kc = some v → v > L := by
  intro r hsuf hlt v hm
  obtain ⟨r', hs', hk⟩ := matchP_origin b r kc v hm
  exact h2 r' (hs'.trans hsuf) (lt_of_le_of_lt hs'.length_le hlt) v hk

theorem tryDrops_rel (L : Nat) (kc ks : List Char → Option Nat) (wc ws : List Char) :
    ∀ i, (∀ j, j ≤ i → OptR L (kc (wc.drop j)) (ks (ws.drop j))) →
    OptR L (tryDrops kc wc i) (tryDrops ks ws i) := by
  intro i
  induction i with
  | zero =>
      intro h
      have := h 0 (le_refl 0)
      simpa [tryDrops] using this
  | succ m ih =>
      intro h
      simp only [tryDrops]
      rcases h (m + 1) (le_refl _) with heq | ⟨n, hn, hkc⟩
      · rw [heq]
        cases hks : ks (ws.drop (m + 1)) with
        | some v => exact Or.inl rfl
        | none => exact ih (fun j hj => h j (Nat.le_succ_of_le hj))
      · rw [hkc]
        exact Or.inr ⟨n, hn, rfl⟩

theorem tryDrops_split (L : Nat) (k : List Char → Option Nat) (s : List Char) (i : Nat) :
    ∀ e, (∀ j, i < j → j ≤ i + e → ∀ v, k (s.drop j) = some v → v > L) →
    OptR L (tryDrops k s (i + e)) (tryDrops k s i) := by
  intro e
  induction e with
  | zero => intro _; exact OptR_refl L _
  | succ m ih =>
      intro h
      rw [show i + (m + 1) = (i + m) + 1 from rfl]
      simp only [tryDrops]
      cases hk : k (s.drop (i + m + 1)) with
      | some v =>
          exact Or.inr ⟨v, h (i + m + 1) (by omega) (by omega) v hk, rfl⟩
      | none => exact ih (fun j hj1 hj2 => h j hj1 (by omega))

theorem tryDrops1_rel (L : Nat) (kc ks : List Char → Option Nat) (wc ws : List Char) :
    ∀ i, (∀ j, 1 ≤ j → j ≤ i → OptR L (kc (wc.drop j)) (ks (ws.drop j))) →
    OptR L (tryDrops1 kc wc i) (tryDrops1 ks ws i) := by
  intro i
  induction i with
  | zero => intro _; exact OptR_refl L _
  | succ m ih =>
      intro h
      simp only [tryDrops1]
      rcases h (m + 1) (by omega) (le_refl _) with heq | ⟨n, hn, hkc⟩
      · rw [heq]
        cases hks : ks (ws.drop (m + 1)) with
        | some v => exact Or.inl rfl
        | none => exact ih (fun j hj1 hj => h j hj1 (Nat.le_succ_of_le hj))
      · rw [hkc]
        exact Or.inr ⟨n, hn, rfl⟩

theorem tryDrops1_split (L : Nat) (k : List Char → Option Nat) (s : List Char) (i : Nat) :
    ∀ e, (∀ j, i < j → j ≤ i + e → ∀ v, k (s.drop j) = some v → v > L) →
    OptR L (tryDrops1 k s (i + e)) (tryDrops1 k s i) := by
  intro e
  induction e with
  | zero => intro _; exact OptR_refl L _
  | succ m ih =>
      intro h
      rw [show i + (m + 1) = (i + m) + 1 from rfl]
      simp only [tryDrops1]
      cases hk : k (s.drop (i + m + 1)) with
      | some v =>
          exact Or.inr ⟨v, h (i + m + 1) (by omega) (by omega) v hk, rfl⟩
      | none => exact ih (fun j hj1 hj2 => h j hj1 (by omega))

theorem matchP_restrict (L : Nat) (post : List Char) :
    ∀ (p : Pat) (kc ks : List Char → Option Nat),
      (∀ w, OptR L (kc (w ++ post)) (ks w)) →
      (∀ r, r <:+ post → r.length < post.length → ∀ v, kc r = some v → v > L) →
      ∀ w, OptR L (matchP p (w ++ post) kc) (matchP p w ks) := by
  intro p
  induction p with
  | lit t =>
      intro kc ks h1 h2 w
      cases hw : matchLit t w with
      | some r =>
          have hctx : matchP (.lit t) (w ++ post) kc = kc (r ++ post) := by
            unfold matchP
            rw [matchLit_append t w r post hw]
          have hsta : matchP (.lit t) w ks = ks r := by
            unfold matchP
            rw [hw]
          rw [hctx, hsta]
          exact h1 r
      | none =>
          have hsta : matchP (.lit t) w ks = none := by
            unfold matchP
            rw [hw]
          cases hc : matchLit t (w ++ post) with
          | none =>
              have hctx : matchP (.lit t) (w ++ post) kc = none := by
                unfold matchP
                rw [hc]
              rw [hctx, hsta]
              exact OptR_refl L none
          | some r =>
              obtain ⟨hsuf, hlt⟩ := matchLit_cross t w post r hw hc
              have hctx : matchP (.lit t) (w ++ post) kc = kc r := by
                unfold matchP
                rw [hc]
              rw [hctx, hsta]
              cases hkr : kc r with
              | none => exact OptR_refl L none
              | some v => exact Or.inr ⟨v, h2 r hsuf hlt v hkr, rfl⟩
  | one q =>
      intro kc ks h1 h2 w
      cases w with
      | nil =>
          have hsta : matchP (.one q) ([] : List Char) ks = none := rfl
          rw [hsta, List.nil_append]
          cases post with
          | nil => exact OptR_refl L none
          | cons c cs =>
              rw [show matchP (.one q) (c :: cs) kc = if q c then kc cs else none from rfl]
              by_cases hq : q c
              · rw [if_pos hq]
                cases hk : kc cs with
                | none => exact OptR_refl L none
                | some v =>
                    exact Or.inr ⟨v, h2 cs (List.suffix_cons c cs) (by simp) v hk, rfl⟩
              · rw [if_neg hq]
                exact OptR_refl L none
      | cons c cs =>
          rw [List.cons_append]
          rw [show matchP (.one q) (c :: (cs ++ post)) kc =
            if q c then kc (cs ++ post) else none from rfl]
          rw [show matchP (.one q) (c :: cs) ks = if q c then ks cs else none from rfl]
          by_cases hq : q c
          · rw [if_pos hq, if_pos hq]
            exact h1 cs
          · rw [if_neg hq, if_neg hq]
            exact OptR_refl L none
  | run0 q =>
      intro kc ks h1 h2 w
      rw [show matchP (.run0 q) (w ++ post) kc =
        tryDrops kc (w ++ post) (runLen q (w ++ post)) from rfl]
      rw [show matchP (.run0 q) w ks = tryDrops ks w (runLen q w) from rfl]
      have hle := runLen_le q w
      rcases Nat.lt_or_ge (runLen q w) w.length with hlt | hge
      · rw [runLen_append_lt q w post hlt]
        apply tryDrops_rel
        intro j hj
        rw [List.drop_append_of_le_length (by omega)]
        exact h1 (w.drop j)
      · have heq : runLen q w = w.length := le_antisymm hle hge
        rw [runLen_append_all q w post heq, heq]
        refine OptR_trans L _ _ _
          (tryDrops_split L kc (w ++ post) w.length (runLen q post) ?_) ?_
        · intro j hj1 hj2 v hkv
          have hdE := runLen_le q post
          have hj : j = w.length + (j - w.length) := by omega
          rw [hj, List.drop_append] at hkv
          refine h2 (post.drop (j - w.length)) (List.drop_suffix _ _) ?_ v hkv
          simp only [List.length_drop]
          omega
        · apply tryDrops_rel
          intro j hj
          rw [List.drop_append_of_le_length (by omega)]
          exact h1 (w.drop j)
  | run1 q =>
      intro kc ks h1 h2 w
      rw [show matchP (.run1 q) (w ++ post) kc =
        tryDrops1 kc (w ++ post) (runLen q (w ++ post)) from rfl]
      rw [show matchP (.run1 q) w ks = tryDrops1 ks w (runLen q w) from rfl]
      have hle := runLen_le q w
      rcases Nat.lt_or_ge (runLen q w) w.length with hlt | hge
      · rw [runLen_append_lt q w post hlt]
        apply tryDrops1_rel
        intro j hj1 hj
        rw [List.drop_append_of_le_length (by omega)]
        exact h1 (w.drop j)
      · have heq : runLen q w = w.length := le_antisymm hle hge
        rw [runLen_append_all q w post heq, heq]
        refine OptR_trans L _ _ _
          (tryDrops1_split L kc (w ++ post) w.length (runLen q post) ?_) ?_
        · intro j hj1 hj2 v hkv
          have hdE := runLen_le q post
          have hj : j = w.length + (j - w.length) := by omega
          rw [hj, List.drop_append] at hkv
          refine h2 (post.drop (j - w.length)) (List.drop_suffix _ _) ?_ v hkv
          simp only [List.length_drop]
          omega
        · apply tryDrops1_rel
          intro j hj1 hj
          rw [List.drop_append_of_le_length (by omega)]
          exact h1 (w.drop j)
  | seq a b iha ihb =>
      intro kc ks h1 h2 w
      exact iha (fun r => matchP b r kc) (fun w' => matchP b w' ks)
        (fun w' => ihb kc ks h1 h2 w')
        (matchP_big L post b kc h2) w
  | opt a iha =>
      intro kc ks h1 h2 w
      have hIH := iha kc ks h1 h2 w
      cases hctx : matchP a (w ++ post) kc with
      | some v =>
          rcases hIH with heq | ⟨m, hm, hbig⟩
          · rw [hctx] at heq
            have hc2 : matchP (.opt a) (w ++ post) kc = some v := by
              unfold matchP
              rw [hctx]
            have hs2 : matchP (.opt a) w ks = some v := by
              unfold matchP
              rw [← heq]
            rw [hc2, hs2]
            exact OptR_refl L _
          · rw [hctx] at hbig
            refine Or.inr ⟨m, hm, ?_⟩
            unfold matchP
            rw [hctx]
            exact hbig
      | none =>
          rcases hIH with heq | ⟨m, hm, hbig⟩
          · rw [hctx] at heq
            have hc2 : matchP (.opt a) (w ++ post) kc = kc (w ++ post) := by
              unfold matchP
              rw [hctx]
            have hs2 : matchP (.opt a) w ks = ks w := by
              unfold matchP
              rw [← heq]
            rw [hc2, hs2]
            exact h1 w
          · rw [hctx] at hbig
            exact absurd hbig (by simp)

theorem figMatchAt_restrict (u post : List Char)
    (h : figMatchAt (u ++ post) = some u.length) :
    figMatchAt u = some u.length := by
  obtain ⟨r, hsuf, hb, hlen⟩ := figMatchAt_origin (u ++ post) u.length h
  have hrlen : r.length = post.length := by
    have hl := hsuf.length_le
    simp only [List.length_append] at hl hlen
    omega
  have hrpost : r = post := by
    have hdrop := List.suffix_iff_eq_drop.mp hsuf
    rw [hrlen] at hdrop
    simp only [List.length_append] at hdrop
    rw [show u.length + post.length - post.length = u.length by omega] at hdrop
    rw [hdrop, List.drop_left]
  rw [hrpost] at hb
  have h1 : ∀ w, OptR u.length
      ((fun r => if boundaryOK r = true then some ((u ++ post).length - r.length) else none)
        (w ++ post))
      ((fun w => if boundaryOK w = true then some (u.length - w.length) else none) w) := by
    intro w
    left
    cases w with
    | nil =>
        simp only [List.nil_append]
        rw [hb]
        rw [show boundaryOK ([] : List Char) = true from rfl]
        simp only [if_true, List.length_append, List.length_nil, Option.some.injEq]
        omega
    | cons c cs =>
        simp only []
        rw [List.cons_append]
        rw [show boundaryOK (c :: (cs ++ post)) = !wordChar c from rfl]
        rw [show boundaryOK (c :: cs) = !wordChar c from rfl]
        cases hw : !wordChar c with
        | false => simp
        | true =>
            simp only [if_true, List.length_append, List.length_cons, Option.some.injEq]
            omega
  have h2 : ∀ r, r <:+ post → r.length < post.length → ∀ v,
      (fun r => if boundaryOK r = true then some ((u ++ post).length - r.length) else none) r
        = some v → v > u.length := by
    intro r hs hlt v hkv
    simp only at hkv
    by_cases hbr : boundaryOK r = true
    · rw [if_pos hbr] at hkv
      simp only [List.length_append, Option.some.injEq] at hkv
      omega
    · rw [if_neg hbr] at hkv
      exact absurd hkv (by simp)
  have hmain := matchP_restrict u.length post figRefPat _ _ h1 h2 u
  rcases hmain with heq | ⟨m, hm, hbig⟩
  · unfold figMatchAt at h ⊢
    rw [← heq]
    exact h
  · unfold figMatchAt at h
    rw [h] at hbig
    simp only [Option.some.injEq] at hbig
    omega

theorem tryDrops_congr (kc ks : List Char → Option Nat) (wc ws : List Char) :
    ∀ i, (∀ j, j ≤ i → kc (wc.drop j) = ks (ws.drop j)) →
    tryDrops kc wc i = tryDrops ks ws i := by
  intro i
  induction i with
  | zero =>
      intro h
      have := h 0 (le_refl 0)
      simpa [tryDrops] using this
  | succ m ih =>
      intro h
      simp only [tryDrops]
      rw [h (m + 1) (le_refl _)]
      cases ks (ws.drop (m + 1)) with
      | some v => rfl
      | none => exact ih (fun j hj => h j (Nat.le_succ_of_le hj))

theorem tryDrops1_congr (kc ks : List Char → Option Nat) (wc ws : List Char) :
    ∀ i, (∀ j, 1 ≤ j → j ≤ i → kc (wc.drop j) = ks (ws.drop j)) →
    tryDrops1 kc wc i = tryDrops1 ks ws i := by
  intro i
  induction i with
  | zero => intro _; rfl
  | succ m ih =>
      intro h
      simp only [tryDrops1]
      rw [h (m + 1) (by omega) (le_refl _)]
      cases ks (ws.drop (m + 1)) with
      | some v => rfl
      | none => exact ih (fun j hj1 hj => h j hj1 (Nat.le_succ_of_le hj))

theorem matchLit_sep_cross (v : List Char) :
    ∀ (τ w : List Char), (∀ a ∈ τ, lowerEq a ' ' = false) →
    matchLit τ w = none → matchLit τ (w ++ ' ' :: v) = none := by
  intro τ
  induction τ with
  | nil => intro w _ h; simp [matchLit] at h
  | cons a ts ih =>
      intro w hτ h
      cases w with
      | nil =>
          simp only [List.nil_append, matchLit]
          rw [if_neg]
          simp [hτ a (by simp)]
      | cons c cs =>
          simp only [matchLit] at h
          simp only [List.cons_append, matchLit]
          by_cases hl : lowerEq a c
          · rw [if_pos hl] at h ⊢
            exact ih cs (fun b hb => hτ b (List.mem_cons_of_mem a hb)) h
          · rw [if_neg hl]

theorem EQ_lit (v : List Char) (τ : List Char) (hτ : ∀ a ∈ τ, lowerEq a ' ' = false) :
    EqPat (' ' :: v) (.lit τ) := by
  intro kc ks hagree w
  cases hw : matchLit τ w with
  | some r =>
      have hctx : matchP (.lit τ) (w ++ ' ' :: v) kc = kc (r ++ ' ' :: v) := by
        unfold matchP
        rw [matchLit_append τ w r (' ' :: v) hw]
      have hsta : matchP (.lit τ) w ks = ks r := by
        unfold matchP
        rw [hw]
      rw [hctx, hsta]
      exact hagree r
  | none =>
      have hctx : matchP (.lit τ) (w ++ ' ' :: v) kc = none := by
        unfold matchP
        rw [matchLit_sep_cross v τ w hτ hw]
      have hsta : matchP (.lit τ) w ks = none := by
        unfold matchP
        rw [hw]
      rw [hctx, hsta]

theorem EQ_one (v : List Char) (q : Char → Bool) (hq : q ' ' = false) :
    EqPat (' ' :: v) (.one q) := by
  intro kc ks hagree w
  cases w with
  | nil =>
      rw [List.nil_append]
      rw [show matchP (.one q) (' ' :: v) kc = if q ' ' then kc v else none from rfl]
      rw [if_neg (by simp [hq])]
      rfl
  | cons c cs =>
      rw [List.cons_append]
      rw [show matchP (.one q) (c :: (cs ++ ' ' :: v)) kc =
        if q c then kc (cs ++ ' ' :: v) else none from rfl]
      rw [show matchP (.one q) (c :: cs) ks = if q c then ks cs else none from rfl]
      by_cases hc : q c
      · rw [if_pos hc, if_pos hc]
        exact hagree cs
      · rw [if_neg hc, if_neg hc]

theorem runLen_sep_zero (v : List Char) (q : Char → Bool) (hq : q ' ' = false) :
    runLen q (' ' :: v) = 0 := by
  simp [runLen, hq]

theorem runLen_sep_append (v : List Char) (q : Char → Bool) (hq : q ' ' = false)
    (w : List Char) : runLen q (w ++ ' ' :: v) = runLen q w := by
  have hle := runLen_le q w
  rcases Nat.lt_or_ge (runLen q w) w.length with hlt | hge
  · exact runLen_append_lt q w (' ' :: v) hlt
  · have heq : runLen q w = w.length := le_antisymm hle hge
    rw [runLen_append_all q w (' ' :: v) heq, runLen_sep_zero v q hq]
    omega

theorem EQ_run0_nonws (v : List Char) (q : Char → Bool) (hq : q ' ' = false) :
    EqPat (' ' :: v) (.run0 q) := by
  intro kc ks hagree w
  rw [show matchP (.run0 q) (w ++ ' ' :: v) kc =
    tryDrops kc (w ++ ' ' :: v) (runLen q (w ++ ' ' :: v)) from rfl]
  rw [show matchP (.run0 q) w ks = tryDrops ks w (runLen q w) from rfl]
  rw [runLen_sep_append v q hq w]
  apply tryDrops_congr
  intro j hj
  have hle := runLen_le q w
  rw [List.drop_append_of_le_length (by omega)]
  exact hagree (w.drop j)

theorem EQ_run1_nonws (v : List Char) (q : Char → Bool) (hq : q ' ' = false) :
    EqPat (' ' :: v) (.run1 q) := by
  intro kc ks hagree w
  rw [show matchP (.run1 q) (w ++ ' ' :: v) kc =
    tryDrops1 kc (w ++ ' ' :: v) (runLen q (w ++ ' ' :: v)) from rfl]
  rw [show matchP (.run1 q) w ks = tryDrops1 ks w (runLen q w) from rfl]
  rw [runLen_sep_append v q hq w]
  apply tryDrops1_congr
  intro j hj1 hj
  have hle := runLen_le q w
  rw [List.drop_append_of_le_length (by omega)]
  exact hagree (w.drop j)

theorem EQ_seq (v : List Char) (a b : Pat) (ha : EqPat (' ' :: v) a)
    (hb : EqPat (' ' :: v) b) : EqPat (' ' :: v) (.seq a b) := by
  intro kc ks hagree w
  exact ha (fun r => matchP b r kc) (fun w' => matchP b w' ks)
    (fun w' => hb kc ks hagree w') w

theorem EQ_opt (v : List Char) (a : Pat) (ha : EqPat (' ' :: v) a) :
    EqPat (' ' :: v) (.opt a) := by
  intro kc ks hagree w
  have hin := ha kc ks hagree w
  have hctx : matchP (.opt a) (w ++ ' ' :: v) kc =
      match matchP a (w ++ ' ' :: v) kc with
      | some x => some x
      | none => kc (w ++ ' ' :: v) := rfl
  have hsta : matchP (.opt a) w ks =
      match matchP a w ks with
      | some x => some x
      | none => ks w := rfl
  rw [hctx, hsta, hin]
  cases matchP a w ks with
  | some x => rfl
  | none => exact hagree w

theorem run0ws_frame (v : List Char) (hv : vOKL v) (kc ks : List Char → Option Nat)
    (hagree : ∀ w', kc (w' ++ ' ' :: v) = ks w') (hdeath : kc v = none) :
    ∀ w, matchP (.run0 isWsChar) (w ++ ' ' :: v) kc = matchP (.run0 isWsChar) w ks := by
  have hrv : runLen isWsChar v = 0 := by
    rcases hv with rfl | ⟨c, v', rfl, hc⟩
    · rfl
    · have hns : isWsChar c = false := startFS_not_ws c (Or.inl hc)
      simp [runLen, hns]
  have hrt : runLen isWsChar (' ' :: v) = 1 := by
    rw [show runLen isWsChar (' ' :: v) =
      if isWsChar ' ' then runLen isWsChar v + 1 else 0 from rfl]
    rw [if_pos (by decide), hrv]
  intro w
  rw [show matchP (.run0 isWsChar) (w ++ ' ' :: v) kc =
    tryDrops kc (w ++ ' ' :: v) (runLen isWsChar (w ++ ' ' :: v)) from rfl]
  rw [show matchP (.run0 isWsChar) w ks = tryDrops ks w (runLen isWsChar w) from rfl]
  have hle := runLen_le isWsChar w
  rcases Nat.lt_or_ge (runLen isWsChar w) w.length with hlt | hge
  · rw [runLen_append_lt isWsChar w (' ' :: v) hlt]
    apply tryDrops_congr
    intro j hj
    rw [List.drop_append_of_le_length (by omega)]
    exact hagree (w.drop j)
  · have heq : runLen isWsChar w = w.length := le_antisymm hle hge
    rw [runLen_append_all isWsChar w (' ' :: v) heq, hrt, heq]
    simp only [tryDrops]
    have hdropv : (w ++ ' ' :: v).drop (w.length + 1) = v := by
      rw [List.drop_append 1]
      rfl
    rw [hdropv, hdeath]
    show tryDrops kc (w ++ ' ' :: v) w.length = tryDrops ks w w.length
    apply tryDrops_congr
    intro j hj
    rw [List.drop_append_of_le_length (by omega)]
    exact hagree (w.drop j)

theorem death_run1_digit (v : List Char) (hv : vOKL v) (b : Pat)
    (k : List Char → Option Nat) : matchP (.seq (.run1 isDigitChar) b) v k = none := by
  have hrv : runLen isDigitChar v = 0 := by
    rcases hv with rfl | ⟨c, v', rfl, hc⟩
    · rfl
    · have hnd : isDigitChar c = false := by
        rcases lowerEq_f_cases c hc with rfl | rfl <;> decide
      simp [runLen, hnd]
  rw [show matchP (.seq (.run1 isDigitChar) b) v k =
    tryDrops1 (fun r => matchP b r k) v (runLen isDigitChar v) from rfl]
  rw [hrv]
  rfl

theorem death_dash (v : List Char) (hv : vOKL v) (b : Pat) (k : List Char → Option Nat) :
    matchP (.seq (.one isDashChar) b) v k = none := by
  rcases hv with rfl | ⟨c, v', rfl, hc⟩
  · rfl
  · have hnd : isDashChar c = false := by
      rcases lowerEq_f_cases c hc with rfl | rfl <;> decide
    rw [show matchP (.seq (.one isDashChar) b) (c :: v') k =
      if isDashChar c then matchP b v' k else none from rfl]
    rw [if_neg (by simp [hnd])]

theorem death_optS (v : List Char) (hv : vOKL v) (k : List Char → Option Nat) :
    matchP (.seq (.opt (.seq (.lit "s".data) (.run0 isWsChar)))
      (.seq (.run1 isDigitChar) figTailPat)) v k = none := by
  have hlitS : matchLit "s".data v = none := by
    rcases hv with rfl | ⟨c, v', rfl, hc⟩
    · rfl
    · have hsc : lowerEq 's' c = false := by
        rcases lowerEq_f_cases c hc with rfl | rfl <;> decide
      rw [show ("s".data : List Char) = ['s'] from rfl]
      simp only [matchLit]
      rw [if_neg (by simp [hsc])]
  have hS : matchP (.seq (.lit "s".data) (.run0 isWsChar)) v
      (fun r => matchP (.seq (.run1 isDigitChar) figTailPat) r k) = none :=
    matchP_seq_lit_none _ _ _ _ hlitS
  rw [show matchP (.seq (.opt (.seq (.lit "s".data) (.run0 isWsChar)))
      (.seq (.run1 isDigitChar) figTailPat)) v k =
    (match matchP (.seq (.lit "s".data) (.run0 isWsChar)) v
        (fun r => matchP (.seq (.run1 isDigitChar) figTailPat) r k) with
     | some x => some x
     | none => matchP (.seq (.run1 isDigitChar) figTailPat) v k) from rfl]
  rw [hS]
  exact death_run1_digit v hv figTailPat k

theorem EQ_seq_run0ws (v : List Char) (hv : vOKL v) (b : Pat)
    (hdeath : ∀ k, matchP b v k = none) (hb : EqPat (' ' :: v) b) :
    EqPat (' ' :: v) (.seq (.run0 isWsChar) b) := by
  intro kc ks hagree w
  exact run0ws_frame v hv (fun r => matchP b r kc) (fun w' => matchP b w' ks)
    (fun w' => hb kc ks hagree w') (hdeath kc) w

theorem EQ_optSGRP (v : List Char) (hv : vOKL v) (b : Pat)
    (hdeath : ∀ k, matchP b v k = none) (hb : EqPat (' ' :: v) b) :
    EqPat (' ' :: v) (.seq (.opt (.seq (.lit "s".data) (.run0 isWsChar))) b) := by
  intro kc ks hagree w
  have hrun : ∀ w', matchP (.run0 isWsChar) (w' ++ ' ' :: v) (fun r => matchP b r kc)
      = matchP (.run0 isWsChar) w' (fun w'' => matchP b w'' ks) :=
    run0ws_frame v hv _ _ (fun w'' => hb kc ks hagree w'') (hdeath kc)
  have hlit : matchP (.lit "s".data) (w ++ ' ' :: v)
        (fun r => matchP (.run0 isWsChar) r (fun r' => matchP b r' kc))
      = matchP (.lit "s".data) w
        (fun w' => matchP (.run0 isWsChar) w' (fun w'' => matchP b w'' ks)) :=
    EQ_lit v "s".data (by decide) _ _ hrun w
  have hctx : matchP (.seq (.opt (.seq (.lit "s".data) (.run0 isWsChar))) b)
      (w ++ ' ' :: v) kc =
      (match matchP (.lit "s".data) (w ++ ' ' :: v)
          (fun r => matchP (.run0 isWsChar) r (fun r' => matchP b r' kc)) with
       | some x => some x
       | none => matchP b (w ++ ' ' :: v) kc) := rfl
  have hsta : matchP (.seq (.opt (.seq (.lit "s".data) (.run0 isWsChar))) b) w ks =
      (match matchP (.lit "s".data) w
          (fun w' => matchP (.run0 isWsChar) w' (fun w'' => matchP b w'' ks)) with
       | some x => some x
       | none => matchP b w ks) := rfl
  rw [hctx, hsta, hlit]
  cases matchP (.lit "s".data) w
      (fun w' => matchP (.run0 isWsChar) w' (fun w'' => matchP b w'' ks)) with
  | some x => rfl
  | none => exact hb kc ks hagree w

theorem EQ_figTail (v : List Char) (hv : vOKL v) : EqPat (' ' :: v) figTailPat := by
  unfold figTailPat
  refine EQ_seq v _ _ (EQ_opt v _ (EQ_one v _ (by decide))) ?_
  refine EQ_seq v _ _ ?_ (EQ_opt v _ (EQ_one v _ (by decide)))
  refine EQ_opt v _ ?_
  refine EQ_seq_run0ws v hv _ (fun k => death_dash v hv _ k) ?_
  refine EQ_seq v _ _ (EQ_one v _ (by decide)) ?_
  refine EQ_seq_run0ws v hv _ (fun k => death_run1_digit v hv _ k) ?_
  exact EQ_seq v _ _ (EQ_run1_nonws v _ (by decide)) (EQ_opt v _ (EQ_one v _ (by decide)))

theorem EQ_figCore (v : List Char) (hv : vOKL v) : EqPat (' ' :: v) figCorePat := by
  unfold figCorePat
  refine EQ_seq v _ _ (EQ_lit v _ (by decide)) ?_
  refine EQ_seq v _ _ (EQ_opt v _ (EQ_lit v _ (by decide))) ?_
  refine EQ_seq v _ _ (EQ_opt v _ (EQ_lit v _ (by decide))) ?_
  refine EQ_seq v _ _ (EQ_opt v _ (EQ_lit v _ (by decide))) ?_
  refine EQ_seq_run0ws v hv _ (fun k => death_optS v hv k) ?_
  refine EQ_optSGRP v hv _ (fun k => death_run1_digit v hv _ k) ?_
  exact EQ_seq v _ _ (EQ_run1_nonws v _ (by decide)) (EQ_figTail v hv)

theorem figMatchAt_frame (c : Char) (u' v : List Char)
    (hf : lowerEq 'f' c = true) (hv : vOKL v) :
    figMatchAt ((c :: u') ++ ' ' :: v) = figMatchAt (c :: u') := by
  have hsc : lowerEq 's' c = false := by
    rcases lowerEq_f_cases c hf with rfl | rfl <;> decide
  have hagree : ∀ w', (fun r => if boundaryOK r = true then
        some (((c :: u') ++ ' ' :: v).length - r.length) else none) (w' ++ ' ' :: v)
      = (fun w => if boundaryOK w = true then
        some ((c :: u').length - w.length) else none) w' := by
    intro w'
    simp only []
    cases w' with
    | nil =>
        rw [List.nil_append]
        have hb1 : boundaryOK (' ' :: v) = true := by
          rw [show boundaryOK (' ' :: v) = !wordChar ' ' from rfl]
          decide
        rw [hb1, show boundaryOK ([] : List Char) = true from rfl]
        rw [if_pos rfl, if_pos rfl]
        simp only [Option.some.injEq, List.length_append, List.length_cons, List.length_nil]
        omega
    | cons d ds =>
        rw [List.cons_append]
        rw [show boundaryOK (d :: (ds ++ ' ' :: v)) = !wordChar d from rfl]
        rw [show boundaryOK (d :: ds) = !wordChar d from rfl]
        cases hw : !wordChar d with
        | false =>
            rw [if_neg (by simp), if_neg (by simp)]
        | true =>
            rw [if_pos rfl, if_pos rfl]
            simp only [Option.some.injEq, List.length_append, List.length_cons]
            omega
  have hm1 : matchLit "supplementary".data ((c :: u') ++ ' ' :: v) = none := by
    rw [show "supplementary".data = 's' :: "upplementary".data from rfl]
    rw [List.cons_append]
    simp only [matchLit]
    rw [if_neg (by simp [hsc])]
  have hm2 : matchLit "supplementary".data (c :: u') = none := by
    rw [show "supplementary".data = 's' :: "upplementary".data from rfl]
    simp only [matchLit]
    rw [if_neg (by simp [hsc])]
  unfold figMatchAt figRefPat
  rw [show (matchP (.seq (.opt (.seq (.lit "supplementary".data) (.run1 isWsChar))) figCorePat)
      ((c :: u') ++ ' ' :: v)
      (fun r => if boundaryOK r = true then
        some (((c :: u') ++ ' ' :: v).length - r.length) else none)) =
    (match matchP (.seq (.lit "supplementary".data) (.run1 isWsChar)) ((c :: u') ++ ' ' :: v)
        (fun r => matchP figCorePat r
          (fun r => if boundaryOK r = true then
            some (((c :: u') ++ ' ' :: v).length - r.length) else none)) with
      | some x => some x
      | none => matchP figCorePat ((c :: u') ++ ' ' :: v)
          (fun r => if boundaryOK r = true then
            some (((c :: u') ++ ' ' :: v).length - r.length) else none)) from rfl]
  rw [show (matchP (.seq (.opt (.seq (.lit "supplementary".data) (.run1 isWsChar))) figCorePat)
      (c :: u')
      (fun r => if boundaryOK r = true then some ((c :: u').length - r.length) else none)) =
    (match matchP (.seq (.lit "supplementary".data) (.run1 isWsChar)) (c :: u')
        (fun r => matchP figCorePat r
          (fun r => if boundaryOK r = true then some ((c :: u').length - r.length) else none)) with
      | some x => some x
      | none => matchP figCorePat (c :: u')
          (fun r => if boundaryOK r = true then
            some ((c :: u').length - r.length) else none)) from rfl]
  rw [matchP_seq_lit_none _ _ _ _ hm1, matchP_seq_lit_none _ _ _ _ hm2]
  exact EQ_figCore v hv _ _ hagree (c :: u')

theorem extractLoop_sublist : ∀ (rs seen : List String),
    List.Sublist (extractLoop seen rs) rs := by
  intro rs
  induction rs with
  | nil => intro seen; simp [extractLoop]
  | cons a rest ih =>
      intro seen
      rw [extractLoop]
      by_cases ha : is_supplementary_ref a
      · rw [if_pos ha]
        exact (ih seen).cons a
      · rw [if_neg ha]
        simp only []
        by_cases hc : seen.contains (normalize_fig_ref a)
        · rw [if_pos hc]
          exact (ih seen).cons a
        · rw [if_neg hc]
          exact (ih _).cons₂ a

theorem extractLoop_seenContains : ∀ (rs seen : List String) (r : String),
    r ∈ extractLoop seen rs → seen.contains (normalize_fig_ref r) = false := by
  intro rs
  induction rs with
  | nil => intro seen r h; simp [extractLoop] at h
  | cons a rest ih =>
      intro seen r h
      rw [extractLoop] at h
      by_cases ha : is_supplementary_ref a
      · rw [if_pos ha] at h
        exact ih seen r h
      · rw [if_neg ha] at h
        simp only [] at h
        by_cases hc : seen.contains (normalize_fig_ref a)
        · rw [if_pos hc] at h
          exact ih seen r h
        · rw [if_neg hc] at h
          rcases List.mem_cons.mp h with rfl | hm
          · simp only [Bool.not_eq_true] at hc
            exact hc
          · have hrec := ih _ r hm
            rw [List.contains_cons] at hrec
            simp only [Bool.or_eq_false_iff] at hrec
            exact hrec.2

theorem extractLoop_nodup : ∀ (rs seen : List String),
    ((extractLoop seen rs).map normalize_fig_ref).Nodup := by
  intro rs
  induction rs with
  | nil => intro seen; simp [extractLoop]
  | cons a rest ih =>
      intro seen
      rw [extractLoop]
      by_cases ha : is_supplementary_ref a
      · rw [if_pos ha]
        exact ih seen
      · rw [if_neg ha]
        simp only []
        by_cases hc : seen.contains (normalize_fig_ref a)
        · rw [if_pos hc]
          exact ih seen
        · rw [if_neg hc]
          simp only [List.map_cons]
          refine List.nodup_cons.mpr ⟨?_, ih _⟩
          intro hmem
          obtain ⟨x, hx, hnx⟩ := List.mem_map.mp hmem
          have hs := extractLoop_seenContains rest _ x hx
          rw [hnx] at hs
          simp [List.contains_cons] at hs

theorem extractLoop_clean : ∀ (rs seen : List String),
    (∀ r ∈ rs, is_supplementary_ref r = false) →
    ((rs.map normalize_fig_ref).Nodup) →
    (∀ r ∈ rs, seen.contains (normalize_fig_ref r) = false) →
    extractLoop seen rs = rs := by
  intro rs
  induction rs with
  | nil => intro seen _ _ _; rfl
  | cons a rest ih =>
      intro seen hns hnd hsn
      rw [extractLoop]
      rw [if_neg (by simp [hns a (List.mem_cons_self a rest)])]
      simp only []
      rw [if_neg (by rw [hsn a (List.mem_cons_self a rest)]; simp)]
      congr 1
      apply ih
      · exact fun r hr => hns r (List.mem_cons_of_mem a hr)
      · simp only [List.map_cons, List.nodup_cons] at hnd
        exact hnd.2
      · intro r hr
        have h1 : normalize_fig_ref r ≠ normalize_fig_ref a := by
          simp only [List.map_cons, List.nodup_cons] at hnd
          intro he
          exact hnd.1 (he ▸ List.mem_map_of_mem normalize_fig_ref hr)
        have h2 := hsn r (List.mem_cons_of_mem a hr)
        rw [List.contains_cons]
        simp only [Bool.or_eq_false_iff]
        exact ⟨beq_eq_false_iff_ne.mpr h1, h2⟩

theorem figScanAux_mem : ∀ (fuel : Nat) (prevW : Bool) (x m : List Char),
    m ∈ figScanAux fuel prevW x →
    ∃ y n, figMatchAt y = some (n + 1) ∧ m = y.take (n + 1) := by
  intro fuel
  induction fuel with
  | zero => intro prevW x m h; simp [figScanAux] at h
  | succ f ih =>
      intro prevW x m h
      cases x with
      | nil => simp [figScanAux] at h
      | cons c cs =>
          rw [figScanAux] at h
          by_cases hp : prevW
          · rw [if_pos hp] at h
            exact ih _ _ _ h
          · rw [if_neg hp] at h
            cases hm : figMatchAt (c :: cs) with
            | none =>
                rw [hm] at h
                exact ih _ _ _ h
            | some k =>
                cases k with
                | zero =>
                    rw [hm] at h
                    exact ih _ _ _ h
                | succ n =>
                    rw [hm] at h
                    rcases List.mem_cons.mp h with rfl | hmem
                    · exact ⟨c :: cs, n, hm, rfl⟩
                    · exact ih _ _ _ hmem

theorem figSlice_good (y : List Char) (n : Nat) (hm : figMatchAt y = some (n + 1)) :
    figMatchAt (y.take (n + 1)) = some (y.take (n + 1)).length ∧
    (∃ c u', y.take (n + 1) = c :: u' ∧ (lowerEq 'f' c = true ∨ lowerEq 's' c = true)) ∧
    (∃ c', (y.take (n + 1)).getLast? = some c' ∧ endCharOK c' = true) := by
  have hle := figMatchAt_le y (n + 1) hm
  have hlen : (y.take (n + 1)).length = n + 1 := by
    rw [List.length_take]
    omega
  have hfull : figMatchAt (y.take (n + 1)) = some (y.take (n + 1)).length := by
    apply figMatchAt_restrict (y.take (n + 1)) (y.drop (n + 1))
    rw [hlen, List.take_append_drop]
    exact hm
  refine ⟨hfull, figMatchAt_start _ _ hfull, ?_⟩
  obtain ⟨h1, c', hc', hOK⟩ := figMatchAt_endOK _ _ hfull
  rw [List.take_length] at hc'
  exact ⟨c', hc', hOK⟩

theorem figSlice_strip (y : List Char) (n : Nat) (hm : figMatchAt y = some (n + 1)) :
    stripChars (y.take (n + 1)) = y.take (n + 1) := by
  obtain ⟨hfull, ⟨c, u', hcons, hcf⟩, ⟨c', hc', hOK⟩⟩ := figSlice_good y n hm
  apply stripChars_noop
  · intro d hd
    rw [hcons] at hd
    simp only [List.head?_cons, Option.some.injEq] at hd
    subst hd
    exact startFS_not_ws c hcf
  · intro d hd
    rw [hc'] at hd
    have hde : c' = d := Option.some.inj hd
    exact hde ▸ endOK_not_ws c' hOK

theorem matchLit_prefix_lower : ∀ (t l x : List Char), matchLit t l = some x →
    List.isPrefixOf (t.map Char.toLower) (l.map Char.toLower) = true := by
  intro t
  induction t with
  | nil => intro l x _; simp [List.isPrefixOf]
  | cons a ts ih =>
      intro l x h
      cases l with
      | nil => simp [matchLit] at h
      | cons c cs =>
          simp only [matchLit] at h
          by_cases hl : lowerEq a c
          · rw [if_pos hl] at h
            simp only [List.map_cons]
            show (Char.toLower a == Char.toLower c &&
              List.isPrefixOf (ts.map Char.toLower) (cs.map Char.toLower)) = true
            rw [show (Char.toLower a == Char.toLower c) = true from hl, ih cs x h]
            rfl
          · rw [if_neg hl] at h
            exact absurd h (by simp)

theorem isInfix_of_isPrefix (nd l : List Char) (h : List.isPrefixOf nd l = true) :
    isInfixChars nd l = true := by
  cases l with
  | nil =>
      cases nd with
      | nil => rfl
      | cons a as => simp [List.isPrefixOf] at h
  | cons c cs =>
      rw [show isInfixChars nd (c :: cs) =
        (List.isPrefixOf nd (c :: cs) || isInfixChars nd cs) from rfl]
      rw [h]
      rfl

theorem supp_lit_is_supp (r : String) (x : List Char)
    (hm : matchLit "supplementary".data r.data = some x) :
    is_supplementary_ref r = true := by
  have hpre := matchLit_prefix_lower _ _ _ hm
  rw [show ("supplementary".data.map Char.toLower) = "supplementary".data from by decide] at hpre
  unfold is_supplementary_ref
  simp only []
  have h1 : containsSubstr (lowerStr r) "supplementary" = true := by
    show isInfixChars "supplementary".data ((lowerStr r).data) = true
    rw [show (lowerStr r).data = r.data.map Char.toLower from rfl]
    exact isInfix_of_isPrefix _ _ hpre
  rw [h1]
  rfl

theorem extract_mem_good (s r : String) (hr : r ∈ extract_non_supp_figure_refs s) :
    GoodRef r ∧ is_supplementary_ref r = false ∧ pstrip r = r := by
  unfold extract_non_supp_figure_refs at hr
  by_cases he : s.isEmpty
  · rw [if_pos he] at hr
    simp at hr
  · rw [if_neg he] at hr
    have hsupp := extractLoop_nonsupp _ _ r hr
    have hmem : r ∈ (rawFigMatches s).map pstrip :=
      (extractLoop_sublist _ _).subset hr
    obtain ⟨mS, hmS, hpm⟩ := List.mem_map.mp hmem
    unfold rawFigMatches at hmS
    obtain ⟨md, hmd, hmk⟩ := List.mem_map.mp hmS
    obtain ⟨y, n, hy, hslice⟩ := figScanAux_mem _ _ _ _ hmd
    subst hslice
    have hstrip := figSlice_strip y n hy
    have hps : pstrip mS = mS := by
      rw [← hmk]
      show String.mk (stripChars (y.take (n + 1))) = String.mk (y.take (n + 1))
      rw [hstrip]
    have hrm : r = mS := by rw [← hpm, hps]
    subst hrm
    obtain ⟨hfull, hstart, _⟩ := figSlice_good y n hy
    have hdata : r.data = y.take (n + 1) := by rw [← hmk]
    have hfullr : figMatchAt r.data = some r.data.length := by
      rw [hdata]
      exact hfull
    refine ⟨⟨hfullr, ?_⟩, hsupp, hps⟩
    obtain ⟨c, u', hcons, hcf⟩ := hstart
    rcases hcf with hf | hs
    · exact ⟨c, u', by rw [hdata]; exact hcons, hf⟩
    · rcases figMatchAt_head _ _ hfullr with hsl | ⟨c₂, cs₂, hc₂, hf₂⟩
      · cases hml : matchLit "supplementary".data r.data with
        | none => exact absurd hml hsl
        | some x =>
            rw [supp_lit_is_supp r x hml] at hsupp
            exact absurd hsupp (by simp)
      · exact ⟨c₂, cs₂, hc₂, hf₂⟩

theorem intercalate_go_append (s : String) : ∀ (as : List String) (acc₁ acc₂ : String),
    String.intercalate.go (acc₁ ++ acc₂) s as = acc₁ ++ String.intercalate.go acc₂ s as := by
  intro as
  induction as with
  | nil => intro acc₁ acc₂; rfl
  | cons a tl ih =>
      intro acc₁ acc₂
      show String.intercalate.go (acc₁ ++ acc₂ ++ s ++ a) s tl =
        acc₁ ++ String.intercalate.go (acc₂ ++ s ++ a) s tl
      rw [show acc₁ ++ acc₂ ++ s ++ a = acc₁ ++ (acc₂ ++ s ++ a) by
        simp [String.append_assoc]]
      exact ih _ _

theorem joinRefs_one (r : String) : joinRefs [r] = r := rfl

theorem joinRefs_cons₂ (r x : String) (xs : List String) :
    joinRefs (r :: x :: xs) = r ++ " " ++ joinRefs (x :: xs) := by
  show String.intercalate.go (r ++ " " ++ x) " " xs =
    r ++ " " ++ String.intercalate.go x " " xs
  exact intercalate_go_append " " xs (r ++ " ") x

theorem joinRefs_cons₂_data (r x : String) (xs : List String) :
    (joinRefs (r :: x :: xs)).data = r.data ++ ' ' :: (joinRefs (x :: xs)).data := by
  rw [joinRefs_cons₂]
  show (r.data ++ " ".data) ++ (joinRefs (x :: xs)).data =
    r.data ++ ' ' :: (joinRefs (x :: xs)).data
  rw [List.append_assoc]
  rfl

theorem joinRefs_head (x : String) (xs : List String) (c : Char) (u' : List Char)
    (hx : x.data = c :: u') : ∃ w, (joinRefs (x :: xs)).data = c :: w := by
  cases xs with
  | nil => exact ⟨u', by rw [joinRefs_one]; exact hx⟩
  | cons b bs =>
      rw [joinRefs_cons₂_data, hx, List.cons_append]
      exact ⟨u' ++ ' ' :: (joinRefs (b :: bs)).data, rfl⟩

theorem figScanAux_nil (f : Nat) (b : Bool) : figScanAux f b [] = [] := by
  cases f <;> rfl

theorem figScanAux_step (f : Nat) (c : Char) (cs : List Char) (n : Nat)
    (hm : figMatchAt (c :: cs) = some (n + 1)) :
    figScanAux (f + 1) false (c :: cs) =
      ((c :: cs).take (n + 1)) ::
        figScanAux f (wordChar (((c :: cs).take (n + 1)).getLastD 'x'))
          ((c :: cs).drop (n + 1)) := by
  rw [figScanAux]
  rw [if_neg (by simp)]
  rw [hm]

theorem figScanAux_skip (f : Nat) (c : Char) (cs : List Char) :
    figScanAux (f + 1) true (c :: cs) = figScanAux f (wordChar c) cs := by
  rw [figScanAux]
  rw [if_pos rfl]

theorem figScan_join : ∀ (rs : List String), (∀ r ∈ rs, GoodRef r) →
    ∀ fuel, (joinRefs rs).data.length ≤ fuel →
    figScanAux fuel false (joinRefs rs).data = rs.map String.data := by
  intro rs
  induction rs with
  | nil =>
      intro _ fuel _
      rw [show (joinRefs []).data = [] from rfl, figScanAux_nil]
      rfl
  | cons r rest ih =>
      intro hg fuel hfuel
      obtain ⟨hfull, c, u', hcons, hf⟩ := hg r (List.mem_cons_self r rest)
      have hml : r.data.length = u'.length + 1 := by rw [hcons]; rfl
      have hm' : figMatchAt (c :: u') = some (u'.length + 1) := by
        rw [← hcons, hfull, hml]
      obtain ⟨hn1, c', hc', hOK⟩ := figMatchAt_endOK r.data r.data.length hfull
      rw [List.take_length] at hc'
      rw [hcons] at hc'
      cases rest with
      | nil =>
          rw [joinRefs_one] at hfuel ⊢
          rw [hcons] at hfuel ⊢
          simp only [List.length_cons] at hfuel
          cases fuel with
          | zero => omega
          | succ f =>
              rw [figScanAux_step f c u' u'.length hm']
              have ht : (c :: u').take (u'.length + 1) = c :: u' := by
                rw [show (u'.length + 1) = (c :: u').length from rfl, List.take_length]
              have hd : (c :: u').drop (u'.length + 1) = [] := by
                rw [show (u'.length + 1) = (c :: u').length from rfl, List.drop_length]
              rw [ht, hd, figScanAux_nil]
              rw [List.map_cons, List.map_nil, ← hcons]
      | cons x xs =>
          obtain ⟨hfullx, cx, ux, hconsx, hfx⟩ := hg x (by simp)
          obtain ⟨w, hw⟩ := joinRefs_head x xs cx ux hconsx
          have hv : vOKL (joinRefs (x :: xs)).data := Or.inr ⟨cx, w, hw, hfx⟩
          have hframe := figMatchAt_frame c u' (joinRefs (x :: xs)).data hf hv
          rw [hm'] at hframe
          rw [joinRefs_cons₂_data, hcons] at hfuel ⊢
          rw [List.cons_append] at hfuel ⊢
          simp only [List.length_cons, List.length_append] at hfuel
          cases fuel with
          | zero => omega
          | succ f =>
              rw [List.cons_append] at hframe
              rw [figScanAux_step f c (u' ++ ' ' :: (joinRefs (x :: xs)).data) u'.length hframe]
              have ht : (c :: (u' ++ ' ' :: (joinRefs (x :: xs)).data)).take (u'.length + 1)
                  = c :: u' := by
                rw [List.take_succ_cons, List.take_left]
              have hd : (c :: (u' ++ ' ' :: (joinRefs (x :: xs)).data)).drop (u'.length + 1)
                  = ' ' :: (joinRefs (x :: xs)).data := by
                rw [List.drop_succ_cons, List.drop_left]
              rw [ht, hd]
              have hlast : (c :: u').getLastD 'x' = c' := by
                rw [List.getLastD_eq_getLast?, hc']
                rfl
              rw [hlast, endOK_word c' hOK]
              cases f with
              | zero => omega
              | succ f' =>
                  rw [figScanAux_skip f' ' ' (joinRefs (x :: xs)).data]
                  rw [show wordChar ' ' = false from by decide]
                  rw [ih (fun q hq => hg q (List.mem_cons_of_mem r hq)) f' (by omega)]
                  rw [List.map_cons, ← hcons]
                  rfl

theorem map_mk_data : ∀ (l : List String), (l.map String.data).map String.mk = l := by
  intro l
  induction l with
  | nil => rfl
  | cons a tl ih =>
      simp only [List.map_cons]
      rw [ih]

theorem map_pstrip_fix : ∀ (l : List String), (∀ q ∈ l, pstrip q = q) → l.map pstrip = l := by
  intro l
  induction l with
  | nil => intro _; rfl
  | cons a tl ih =>
      intro h
      simp only [List.map_cons]
      rw [h a (List.mem_cons_self a tl), ih (fun q hq => h q (List.mem_cons_of_mem a hq))]

theorem extract_nodup (s : String) :
    ((extract_non_supp_figure_refs s).map normalize_fig_ref).Nodup := by
  unfold extract_non_supp_figure_refs
  by_cases he : s.isEmpty
  · rw [if_pos he]
    simp
  · rw [if_neg he]
    exact extractLoop_nodup _ _

theorem extract_join_clean (rs : List String)
    (hgood : ∀ r ∈ rs, GoodRef r ∧ is_supplementary_ref r = false ∧ pstrip r = r)
    (hnodup : (rs.map normalize_fig_ref).Nodup) :
    extract_non_supp_figure_refs (joinRefs rs) = rs := by
  cases rs with
  | nil => rfl
  | cons r rest =>
      obtain ⟨⟨hfull, c, u', hcons, hf⟩, hns, hstr⟩ := hgood r (List.mem_cons_self r rest)
      obtain ⟨w, hw⟩ := joinRefs_head r rest c u' hcons
      have hne : ¬ (joinRefs (r :: rest)).isEmpty = true := by
        rw [String.isEmpty_iff]
        intro h
        rw [h] at hw
        exact absurd hw (by simp)
      unfold extract_non_supp_figure_refs
      rw [if_neg hne]
      rw [show rawFigMatches (joinRefs (r :: rest)) =
        (figScanAux (joinRefs (r :: rest)).data.length false
          (joinRefs (r :: rest)).data).map String.mk from rfl]
      rw [figScan_join (r :: rest) (fun q hq => (hgood q hq).1) _ (le_refl _)]
      rw [map_mk_data]
      rw [map_pstrip_fix (r :: rest) (fun q hq => (hgood q hq).2.2)]
      exact extractLoop_clean (r :: rest) [] (fun q hq => (hgood q hq).2.1) hnodup
        (fun q _ => rfl)

/-- C8: figure-reference extraction is idempotent and order-preserving — its
output never contains two references with the same normalization (lowercase,
whitespace collapsed, en dash mapped to hyphen), it is a sublist of the
stripped raw matches (first-seen order), re-applying the extractor to the
whitespace-joined concatenation of its own output returns the very same list,
and equal texts yield equal outputs. -/
theorem claim_C8 (s t : String) :
    ((extract_non_supp_figure_refs s).map normalize_fig_ref).Nodup ∧
    List.Sublist (extract_non_supp_figure_refs s) ((rawFigMatches s).map pstrip) ∧
    extract_non_supp_figure_refs (joinRefs (extract_non_supp_figure_refs s))
      = extract_non_supp_figure_refs s ∧
    (s = t → extract_non_supp_figure_refs s = extract_non_supp_figure_refs t) := by
  refine ⟨extract_nodup s, ?_, ?_, fun h => h ▸ rfl⟩
  · unfold extract_non_supp_figure_refs
    by_cases he : s.isEmpty
    · rw [if_pos he]
      exact List.nil_sublist _
    · rw [if_neg he]
      exact extractLoop_sublist _ _
  · exact extract_join_clean _ (fun r hr => extract_mem_good s r hr) (extract_nodup s)

/-- Witness for C8 at a concrete text: the deduplicating, supplementary-excluding
extraction evaluates as expected, and the theorem applies with its equal-texts
hypothesis discharged by `rfl`. -/
theorem claim_C8_witness :
    (extract_non_supp_figure_refs
        "Results in Figure 3 and Fig. 4a; Supplementary Fig. S1 aside, Figure  3 repeats."
      = ["Figure 3", "Fig. 4a"]) ∧
    (("Results in Figure 3 and Fig. 4a; Supplementary Fig. S1 aside, Figure  3 repeats."
        : String)
      = "Results in Figure 3 and Fig. 4a; Supplementary Fig. S1 aside, Figure  3 repeats.") ∧
    (((extract_non_supp_figure_refs
        "Results in Figure 3 and Fig. 4a; Supplementary Fig. S1 aside, Figure  3 repeats.").map
          normalize_fig_ref).Nodup ∧
      List.Sublist (extract_non_supp_figure_refs
          "Results in Figure 3 and Fig. 4a; Supplementary Fig. S1 aside, Figure  3 repeats.")
        ((rawFigMatches
          "Results in Figure 3 and Fig. 4a; Supplementary Fig. S1 aside, Figure  3 repeats.").map
            pstrip) ∧
      extract_non_supp_figure_refs (joinRefs (extract_non_supp_figure_refs
          "Results in Figure 3 and Fig. 4a; Supplementary Fig. S1 aside, Figure  3 repeats."))
        = extract_non_supp_figure_refs
          "Results in Figure 3 and Fig. 4a; Supplementary Fig. S1 aside, Figure  3 repeats." ∧
      (("Results in Figure 3 and Fig. 4a; Supplementary Fig. S1 aside, Figure  3 repeats."
          : String)
        = "Results in Figure 3 and Fig. 4a; Supplementary Fig. S1 aside, Figure  3 repeats." →
        extract_non_supp_figure_refs
          "Results in Figure 3 and Fig. 4a; Supplementary Fig. S1 aside, Figure  3 repeats."
        = extract_non_supp_figure_refs
          "Results in Figure 3 and Fig. 4a; Supplementary Fig. S1 aside, Figure  3 repeats.")) :=
  ⟨by decide, rfl,
    claim_C8
      "Results in Figure 3 and Fig. 4a; Supplementary Fig. S1 aside, Figure  3 repeats."
      "Results in Figure 3 and Fig. 4a; Supplementary Fig. S1 aside, Figure  3 repeats."⟩
